import Mathlib

/-!
# tasktimer: a poll-based timer manager

A shallow embedding of `tasktimer/timerimpl.go` and `tasktimer/manager.go`.

* A `time.Time` value is represented by the four observations the package
  makes of it: `Unix()`, `Weekday()`, `Hour()` and `Minute()`.
* Timers are Go pointers stored in a map; here the map stores timer values and
  a mutation through the pointer is a write-back under the same key.
* A user callback is identified by a number; invoking it is recorded as a
  `Call`.  A nil callback is `none`.
* `TimerId` is an `int32`; `m.timerId++` wraps around (`int32Incr`).
* A method call on a nil interface panics; `loopTimer` returns `none` then.
* Locks, the wait group and the cancellation context are not represented.
-/

namespace TaskTimer

/-! ## Data model -/

/-- The observations of a `time.Time` value that the package uses. -/
structure Time where
  Unix : Int
  Weekday : Int
  Hour : Int
  Minute : Int
deriving DecidableEq, Repr

/-- Default refresh period of the ticker, in seconds. -/
def DefaultInterval : Int := 3

abbrev TimerType := Int

def TimerTypeFixed : TimerType := 1
def TimerTypeEveryDayHour : TimerType := 2
def TimerTypeWeeklyHour : TimerType := 3
def TimerTypeWeeklyHourMinute : TimerType := 4

/-- Go type `TimerId int32`: an integer in `[-2^31, 2^31)`. -/
abbrev TimerId := Int

/-- The value of `x++` for an `int32` variable holding `x` (two's complement wrap-around). -/
def int32Incr (x : Int) : Int := (x + 1 + 2 ^ 31) % 2 ^ 32 - 2 ^ 31

/-- Go type `TimerCB func(now time.Time)`: a callback is identified by a number. -/
abbrev TimerCB := Nat

/-- One invocation `cb(now)` of a user callback, made by the timer `timerId`. -/
structure Call where
  timerId : TimerId
  cb : TimerCB
  now : Time
deriving DecidableEq, Repr

structure timerBase where
  timerId : TimerId
  cb : Option TimerCB
deriving DecidableEq, Repr

def timerBase.SetCallback (t : timerBase) (cb : Option TimerCB) : timerBase :=
  { t with cb := cb }

/-- Go method `timerBase.Callback`: invokes the callback when it is not nil. -/
def timerBase.Callback (t : timerBase) (now : Time) : List Call :=
  match t.cb with
  | some cb => [{ timerId := t.timerId, cb := cb, now := now }]
  | none => []

def timerBase.SetTimerId (t : timerBase) (id : TimerId) : timerBase :=
  { t with timerId := id }

def timerBase.GetTimerId (t : timerBase) : TimerId := t.timerId

/-! ## The four timers -/

structure FixedTimer where
  base : timerBase
  lastTs : Int
  dstTs : Int
deriving DecidableEq, Repr

/-- Go method `FixedTimer.init`; `cur` is the value of `time.Now()`. -/
def FixedTimer.init (t : FixedTimer) (cur : Time) : FixedTimer :=
  { t with lastTs := cur.Unix }

/-- Go method `FixedTimer.IsArrive`: the returned value is computed from the old `lastTs`,
then the deferred function stores `nowTs`. -/
def FixedTimer.IsArrive (t : FixedTimer) (now : Time) : Bool × FixedTimer :=
  let nowTs := now.Unix
  (decide (t.dstTs > t.lastTs) && decide (t.dstTs ≤ nowTs), { t with lastTs := nowTs })

def FixedTimer.GetTimerType (_t : FixedTimer) : TimerType := TimerTypeFixed

structure EveryDayHourTimer where
  base : timerBase
  lastHour : Int
  dstHour : Int
deriving DecidableEq, Repr

def EveryDayHourTimer.init (t : EveryDayHourTimer) (cur : Time) : EveryDayHourTimer :=
  { t with lastHour := cur.Hour }

def EveryDayHourTimer.IsArrive (t : EveryDayHourTimer) (now : Time) :
    Bool × EveryDayHourTimer :=
  let hour := now.Hour
  (decide (t.dstHour = hour) && decide (t.dstHour ≠ t.lastHour), { t with lastHour := hour })

def EveryDayHourTimer.GetTimerType (_t : EveryDayHourTimer) : TimerType :=
  TimerTypeEveryDayHour

structure WeeklyHourTimer where
  base : timerBase
  lastWeek : Int
  lastHour : Int
  dstWeek : Int
  dstHour : Int
deriving DecidableEq, Repr

/-- Go method `WeeklyHourTimer.init`: it reads `time.Now()` twice, `cur` for the weekday and
`cur2` for the hour. -/
def WeeklyHourTimer.init (t : WeeklyHourTimer) (cur cur2 : Time) : WeeklyHourTimer :=
  { t with lastWeek := cur.Weekday, lastHour := cur2.Hour }

def WeeklyHourTimer.IsArrive (t : WeeklyHourTimer) (now : Time) : Bool × WeeklyHourTimer :=
  let week := now.Weekday
  let hour := now.Hour
  (decide (week = t.dstWeek) && decide (t.dstHour = hour) && decide (t.dstHour ≠ t.lastHour),
    { t with lastWeek := week, lastHour := hour })

def WeeklyHourTimer.GetTimerType (_t : WeeklyHourTimer) : TimerType := TimerTypeWeeklyHour

structure WeeklyHourMinuteTimer where
  base : timerBase
  lastWeek : Int
  lastHour : Int
  lastMinute : Int
  dstWeek : Int
  dstHour : Int
  dstMinute : Int
deriving DecidableEq, Repr

def WeeklyHourMinuteTimer.init (t : WeeklyHourMinuteTimer) (cur : Time) :
    WeeklyHourMinuteTimer :=
  { t with lastWeek := cur.Weekday, lastHour := cur.Hour, lastMinute := cur.Minute }

def WeeklyHourMinuteTimer.IsArrive (t : WeeklyHourMinuteTimer) (now : Time) :
    Bool × WeeklyHourMinuteTimer :=
  let week := now.Weekday
  let hour := now.Hour
  let minute := now.Minute
  (decide (t.dstWeek = week) && decide (t.dstHour = hour) && decide (t.dstMinute = minute)
      && decide (t.dstMinute ≠ t.lastMinute),
    { t with lastWeek := week, lastHour := hour, lastMinute := minute })

def WeeklyHourMinuteTimer.GetTimerType (_t : WeeklyHourMinuteTimer) : TimerType :=
  TimerTypeWeeklyHourMinute

/-! ## The interface `ITimer` -/

/-- The implementations of the Go interface `ITimer`. -/
inductive ITimer where
  | fixed (t : FixedTimer)
  | everyDayHour (t : EveryDayHourTimer)
  | weeklyHour (t : WeeklyHourTimer)
  | weeklyHourMinute (t : WeeklyHourMinuteTimer)
deriving DecidableEq, Repr

/-- Go method `init`; `cur` and `cur2` are the first and the second value of `time.Now()`
read during the call. -/
def ITimer.init (timer : ITimer) (cur cur2 : Time) : ITimer :=
  match timer with
  | .fixed t => .fixed (t.init cur)
  | .everyDayHour t => .everyDayHour (t.init cur)
  | .weeklyHour t => .weeklyHour (t.init cur cur2)
  | .weeklyHourMinute t => .weeklyHourMinute (t.init cur)

def ITimer.IsArrive (timer : ITimer) (now : Time) : Bool × ITimer :=
  match timer with
  | .fixed t => ((t.IsArrive now).1, .fixed (t.IsArrive now).2)
  | .everyDayHour t => ((t.IsArrive now).1, .everyDayHour (t.IsArrive now).2)
  | .weeklyHour t => ((t.IsArrive now).1, .weeklyHour (t.IsArrive now).2)
  | .weeklyHourMinute t => ((t.IsArrive now).1, .weeklyHourMinute (t.IsArrive now).2)

def ITimer.GetTimerType (timer : ITimer) : TimerType :=
  match timer with
  | .fixed t => t.GetTimerType
  | .everyDayHour t => t.GetTimerType
  | .weeklyHour t => t.GetTimerType
  | .weeklyHourMinute t => t.GetTimerType

def ITimer.SetTimerId (timer : ITimer) (id : TimerId) : ITimer :=
  match timer with
  | .fixed t => .fixed { t with base := t.base.SetTimerId id }
  | .everyDayHour t => .everyDayHour { t with base := t.base.SetTimerId id }
  | .weeklyHour t => .weeklyHour { t with base := t.base.SetTimerId id }
  | .weeklyHourMinute t => .weeklyHourMinute { t with base := t.base.SetTimerId id }

def ITimer.GetTimerId (timer : ITimer) : TimerId :=
  match timer with
  | .fixed t => t.base.GetTimerId
  | .everyDayHour t => t.base.GetTimerId
  | .weeklyHour t => t.base.GetTimerId
  | .weeklyHourMinute t => t.base.GetTimerId

def ITimer.SetCallback (timer : ITimer) (cb : Option TimerCB) : ITimer :=
  match timer with
  | .fixed t => .fixed { t with base := t.base.SetCallback cb }
  | .everyDayHour t => .everyDayHour { t with base := t.base.SetCallback cb }
  | .weeklyHour t => .weeklyHour { t with base := t.base.SetCallback cb }
  | .weeklyHourMinute t => .weeklyHourMinute { t with base := t.base.SetCallback cb }

def ITimer.Callback (timer : ITimer) (now : Time) : List Call :=
  match timer with
  | .fixed t => t.base.Callback now
  | .everyDayHour t => t.base.Callback now
  | .weeklyHour t => t.base.Callback now
  | .weeklyHourMinute t => t.base.Callback now

/-! ## The registry `map[TimerId]ITimer` -/

/-- Go type `map[TimerId]ITimer`, as an association list.  The order of the entries stands
for the unspecified iteration order of the Go map. -/
abbrev Registry := List (TimerId × ITimer)

/-- Map lookup `reg[id]`; `none` stands for the nil interface value of a missing key. -/
def Registry.get (reg : Registry) (id : TimerId) : Option ITimer :=
  match reg with
  | [] => none
  | (k, v) :: rest => if k = id then some v else Registry.get rest id

/-- Go builtin `delete(reg, id)`. -/
def Registry.delete (reg : Registry) (id : TimerId) : Registry :=
  reg.filter (fun e => decide (e.1 ≠ id))

/-- Map assignment `reg[id] = timer`. -/
def Registry.set (reg : Registry) (id : TimerId) (timer : ITimer) : Registry :=
  (id, timer) :: Registry.delete reg id

/-- The keys of the map, in iteration order. -/
def Registry.keys (reg : Registry) : List TimerId := reg.map Prod.fst

/-! ## The manager -/

structure Manager where
  timerId : TimerId
  timerMgr : Registry
  interval : Int
deriving DecidableEq, Repr

/-- Go method `Manager.init`, applied to a zero `Manager`. -/
def Manager.init (m : Manager) : Manager :=
  { m with timerMgr := [], interval := DefaultInterval, timerId := 0 }

def NewTaskTimerMgr : Manager :=
  Manager.init { timerId := 0, timerMgr := [], interval := 0 }

def Manager.Clear (m : Manager) : Manager :=
  { m with timerMgr := [] }

/-- Go method `Manager.register`: returns the manager and the registered timer. -/
def Manager.register (m : Manager) (timer : ITimer) (cur cur2 : Time) : Manager × ITimer :=
  let m1 := { m with timerId := int32Incr m.timerId }
  let timer1 := timer.SetTimerId m1.timerId
  let timer2 := timer1.init cur cur2
  ({ m1 with timerMgr := Registry.set m1.timerMgr timer2.GetTimerId timer2 }, timer2)

/-- Go method `Manager.RegisterFixedTimer`. -/
def Manager.RegisterFixedTimer (m : Manager) (ts : Int) (cb : Option TimerCB)
    (cur cur2 : Time) : Manager × TimerId :=
  if ts = 0 then (m, 0)
  else
    let r := m.register
      (.fixed { base := { timerId := 0, cb := cb }, lastTs := 0, dstTs := ts }) cur cur2
    (r.1, r.2.GetTimerId)

def Manager.RegisterEveryDayHourTimer (m : Manager) (hour : Int) (cb : Option TimerCB)
    (cur cur2 : Time) : Manager × TimerId :=
  let r := m.register
    (.everyDayHour { base := { timerId := 0, cb := cb }, lastHour := 0, dstHour := hour })
    cur cur2
  (r.1, r.2.GetTimerId)

def Manager.RegisterWeeklyHourTimer (m : Manager) (week : Int) (hour : Int)
    (cb : Option TimerCB) (cur cur2 : Time) : Manager × TimerId :=
  let r := m.register
    (.weeklyHour { base := { timerId := 0, cb := cb }, lastWeek := 0, lastHour := 0,
                   dstWeek := week, dstHour := hour }) cur cur2
  (r.1, r.2.GetTimerId)

def Manager.RegisterWeeklyHourMinuteTimer (m : Manager) (week : Int) (hour : Int)
    (minute : Int) (cb : Option TimerCB) (cur cur2 : Time) : Manager × TimerId :=
  let r := m.register
    (.weeklyHourMinute { base := { timerId := 0, cb := cb }, lastWeek := 0, lastHour := 0,
                         lastMinute := 0, dstWeek := week, dstHour := hour,
                         dstMinute := minute }) cur cur2
  (r.1, r.2.GetTimerId)

def Manager.UnRegisterById (m : Manager) (id : TimerId) : Manager :=
  { m with timerMgr := Registry.delete m.timerMgr id }

def Manager.UnRegister (m : Manager) (timer : ITimer) : Manager :=
  { m with timerMgr := Registry.delete m.timerMgr timer.GetTimerId }

def Manager.SetInterval (m : Manager) (interval : Int) : Manager :=
  { m with interval := interval }

def Manager.GetInterval (m : Manager) : Int := m.interval

/-- Go method `Manager.getSortedTimerIdArray`: the keys of the map, sorted ascending. -/
def Manager.getSortedTimerIdArray (m : Manager) : List TimerId :=
  List.insertionSort (fun a b => a ≤ b) (Registry.keys m.timerMgr)

/-- The `for _, id := range ids` loop of `Manager.loopTimer` on the registry `reg`:
the final registry and the callback invocations made, in order; `none` when the lookup
yields a nil timer, on which the method call panics. -/
def loopIds (now : Time) : Registry → List TimerId → Option (Registry × List Call)
  | reg, [] => some (reg, [])
  | reg, id :: ids =>
    match Registry.get reg id with
    | none => none
    | some timer =>
      let r := timer.IsArrive now
      let reg1 := Registry.set reg id r.2
      if r.1 then
        let reg2 := if r.2.GetTimerType = TimerTypeFixed
          then Registry.delete reg1 r.2.GetTimerId else reg1
        match loopIds now reg2 ids with
        | none => none
        | some (reg3, calls) => some (reg3, r.2.Callback now ++ calls)
      else loopIds now reg1 ids

/-- Go method `Manager.loopTimer`: one poll tick. -/
def Manager.loopTimer (m : Manager) (now : Time) : Option (Manager × List Call) :=
  match loopIds now m.timerMgr m.getSortedTimerIdArray with
  | none => none
  | some (reg, calls) => some ({ m with timerMgr := reg }, calls)

/-- Go method `Manager.timerRoutine`, for the ticks `ticks` delivered by the ticker before
the context is cancelled: `loopTimer` is applied to each, in order. -/
def Manager.timerRoutine (m : Manager) : List Time → Option (Manager × List Call)
  | [] => some (m, [])
  | now :: rest =>
    match m.loopTimer now with
    | none => none
    | some (m1, calls1) =>
      match Manager.timerRoutine m1 rest with
      | none => none
      | some (m2, calls2) => some (m2, calls1 ++ calls2)

/-! ## Sequences of calls -/

/-- Successive calls `IsArrive(now)` on one timer, for the times `polls` in order, each
call starting from the timer left by the previous one: the returned values. -/
def ITimer.IsArriveSeq (timer : ITimer) : List Time → List Bool
  | [] => []
  | now :: rest => (timer.IsArrive now).1 :: ITimer.IsArriveSeq (timer.IsArrive now).2 rest

/-- A call of the public interface of the manager, or one tick of the worker.  The times
`cur` and `cur2` of a registration are the first and second value of `time.Now()` read by
`init`. -/
inductive Op where
  | RegisterFixedTimer (ts : Int) (cb : Option TimerCB) (cur cur2 : Time)
  | RegisterEveryDayHourTimer (hour : Int) (cb : Option TimerCB) (cur cur2 : Time)
  | RegisterWeeklyHourTimer (week hour : Int) (cb : Option TimerCB) (cur cur2 : Time)
  | RegisterWeeklyHourMinuteTimer (week hour minute : Int) (cb : Option TimerCB)
      (cur cur2 : Time)
  | UnRegisterById (id : TimerId)
  | UnRegister (timer : ITimer)
  | Clear
  | SetInterval (interval : Int)
  | loopTimer (now : Time)
deriving DecidableEq, Repr

/-- Whether the call is a registration that stores a timer: every registration except
`RegisterFixedTimer` with `ts == 0`. -/
def Op.stores : Op → Bool
  | .RegisterFixedTimer ts _ _ _ => decide (ts ≠ 0)
  | .RegisterEveryDayHourTimer _ _ _ _ => true
  | .RegisterWeeklyHourTimer _ _ _ _ _ => true
  | .RegisterWeeklyHourMinuteTimer _ _ _ _ _ _ => true
  | _ => false

/-- One call on the manager: the new manager and, for a registration that stores a timer,
the returned id. -/
def Manager.step (m : Manager) : Op → Option (Manager × Option TimerId)
  | .RegisterFixedTimer ts cb cur cur2 =>
    let r := m.RegisterFixedTimer ts cb cur cur2
    some (r.1, if ts = 0 then none else some r.2)
  | .RegisterEveryDayHourTimer hour cb cur cur2 =>
    let r := m.RegisterEveryDayHourTimer hour cb cur cur2
    some (r.1, some r.2)
  | .RegisterWeeklyHourTimer week hour cb cur cur2 =>
    let r := m.RegisterWeeklyHourTimer week hour cb cur cur2
    some (r.1, some r.2)
  | .RegisterWeeklyHourMinuteTimer week hour minute cb cur cur2 =>
    let r := m.RegisterWeeklyHourMinuteTimer week hour minute cb cur cur2
    some (r.1, some r.2)
  | .UnRegisterById id => some (m.UnRegisterById id, none)
  | .UnRegister timer => some (m.UnRegister timer, none)
  | .Clear => some (m.Clear, none)
  | .SetInterval interval => some (m.SetInterval interval, none)
  | .loopTimer now =>
    match m.loopTimer now with
    | none => none
    | some (m1, _) => some (m1, none)

/-- A sequence of calls, applied in order: the final manager and the ids returned by the
registrations that stored a timer, in the order of the calls. -/
def Manager.run (m : Manager) : List Op → Option (Manager × List TimerId)
  | [] => some (m, [])
  | op :: rest =>
    match m.step op with
    | none => none
    | some (m1, r) =>
      match Manager.run m1 rest with
      | none => none
      | some (m2, ids) => some (m2, r.toList ++ ids)

/-- A registry as the package builds it: no key occurs twice, and every timer is stored
under its own id. -/
def Registry.WF (reg : Registry) : Prop :=
  (Registry.keys reg).Nodup ∧ ∀ e ∈ reg, e.2.GetTimerId = e.1

instance (reg : Registry) : Decidable (Registry.WF reg) :=
  inferInstanceAs (Decidable ((Registry.keys reg).Nodup ∧ ∀ e ∈ reg, e.2.GetTimerId = e.1))

/-- The callback invocations made for the id `k` in one tick, read off the registry `reg`
held before the tick: the invocation made by its timer if it is registered and due. -/
def dueCallsOf (now : Time) (reg : Registry) (k : TimerId) : List Call :=
  match Registry.get reg k with
  | some t => if (t.IsArrive now).1 then (t.IsArrive now).2.Callback now else []
  | none => []

/-- The callback invocations of one tick, read off the registry `reg` held before the
tick: for each id of `ids`, in order, the invocation made by its timer if it is due. -/
def dueCalls (now : Time) (reg : Registry) : List TimerId → List Call
  | [] => []
  | id :: ids => dueCallsOf now reg id ++ dueCalls now reg ids

/-- The entry under `k` after one tick over `ids`, read off the registry `reg` held before
the tick. -/
def tickGet (now : Time) (reg : Registry) (ids : List TimerId) (k : TimerId) :
    Option ITimer :=
  if k ∈ ids then
    match Registry.get reg k with
    | some t =>
      if (t.IsArrive now).1 = true ∧ (t.IsArrive now).2.GetTimerType = TimerTypeFixed
      then none else some (t.IsArrive now).2
    | none => none
  else Registry.get reg k

/-- The registry after the loop body of `loopTimer` has processed `timer`, found under
`id`. -/
def loopBodyReg (now : Time) (reg : Registry) (id : TimerId) (timer : ITimer) : Registry :=
  if (timer.IsArrive now).1 = true ∧ (timer.IsArrive now).2.GetTimerType = TimerTypeFixed
  then Registry.delete (Registry.set reg id (timer.IsArrive now).2)
    (timer.IsArrive now).2.GetTimerId
  else Registry.set reg id (timer.IsArrive now).2

/-- The embedded `timerBase` of a timer. -/
def ITimer.base : ITimer → timerBase
  | .fixed t => t.base
  | .everyDayHour t => t.base
  | .weeklyHour t => t.base
  | .weeklyHourMinute t => t.base

/-- Whether `id` is registered in `reg` with a timer for which `IsArrive(now)` is true. -/
def Registry.isDue (now : Time) (reg : Registry) (id : TimerId) : Bool :=
  match Registry.get reg id with
  | some t => (t.IsArrive now).1
  | none => false

/-- Whether `id` is registered in `reg` with a timer whose callback is not nil. -/
def Registry.hasCallback (reg : Registry) (id : TimerId) : Bool :=
  match Registry.get reg id with
  | some t => t.base.cb.isSome
  | none => false

/-! ## Basic facts about one evaluation -/

/-- C2: `FixedTimer.IsArrive(now)` returns true exactly when `lastTs < dstTs` and
`dstTs <= now.Unix()` for the `lastTs` held before the call, and afterwards `lastTs` is
`now.Unix()` whatever the result. -/
theorem FixedTimer_IsArrive_iff (t : FixedTimer) (now : Time) :
    ((t.IsArrive now).1 = true ↔ t.lastTs < t.dstTs ∧ t.dstTs ≤ now.Unix) ∧
      (t.IsArrive now).2.lastTs = now.Unix := by
  simp [FixedTimer.IsArrive]

/-- C3: `EveryDayHourTimer.IsArrive(now)` returns true exactly when `now.Hour()` is the
target hour and the `lastHour` held before the call differs from the target hour;
afterwards `lastHour` is `now.Hour()` whatever the result. -/
theorem EveryDayHourTimer_IsArrive_iff (t : EveryDayHourTimer) (now : Time) :
    ((t.IsArrive now).1 = true ↔ now.Hour = t.dstHour ∧ t.lastHour ≠ t.dstHour) ∧
      (t.IsArrive now).2.lastHour = now.Hour := by
  simp only [EveryDayHourTimer.IsArrive, Bool.and_eq_true, decide_eq_true_eq, and_true]
  constructor
  · rintro ⟨h1, h2⟩
    exact ⟨h1.symm, fun h => h2 h.symm⟩
  · rintro ⟨h1, h2⟩
    exact ⟨h1.symm, fun h => h2 h.symm⟩

/-- C5: `WeeklyHourTimer.IsArrive(now)` returns true exactly when the weekday and the hour
of `now` are the target ones and the `lastHour` held before the call differs from the
target hour; afterwards `lastWeek` and `lastHour` are those of `now` whatever the result.
In particular the result is false when the weekday or the hour of `now` is not the
target one. -/
theorem WeeklyHourTimer_IsArrive_iff (t : WeeklyHourTimer) (now : Time) :
    ((t.IsArrive now).1 = true ↔
        now.Weekday = t.dstWeek ∧ now.Hour = t.dstHour ∧ t.lastHour ≠ t.dstHour) ∧
      (t.IsArrive now).2.lastWeek = now.Weekday ∧
      (t.IsArrive now).2.lastHour = now.Hour ∧
      ((now.Weekday ≠ t.dstWeek ∨ now.Hour ≠ t.dstHour) → (t.IsArrive now).1 = false) := by
  simp only [WeeklyHourTimer.IsArrive, Bool.and_eq_true, decide_eq_true_eq, true_and]
  refine ⟨⟨?_, ?_⟩, ?_⟩
  · rintro ⟨⟨h1, h2⟩, h3⟩
    exact ⟨h1, h2.symm, fun h => h3 h.symm⟩
  · rintro ⟨h1, h2, h3⟩
    exact ⟨⟨h1, h2.symm⟩, fun h => h3 h.symm⟩
  · intro h
    rcases h with h | h
    · simp [h]
    · have h2 : ¬ t.dstHour = now.Hour := fun e => h e.symm
      simp [h2]

/-- C6: `WeeklyHourMinuteTimer.IsArrive(now)` returns true exactly when the weekday, the
hour and the minute of `now` are the target ones and the `lastMinute` held before the call
differs from the target minute; afterwards `lastWeek`, `lastHour` and `lastMinute` are
those of `now` whatever the result. -/
theorem WeeklyHourMinuteTimer_IsArrive_iff (t : WeeklyHourMinuteTimer) (now : Time) :
    ((t.IsArrive now).1 = true ↔
        now.Weekday = t.dstWeek ∧ now.Hour = t.dstHour ∧ now.Minute = t.dstMinute ∧
          t.lastMinute ≠ t.dstMinute) ∧
      (t.IsArrive now).2.lastWeek = now.Weekday ∧
      (t.IsArrive now).2.lastHour = now.Hour ∧
      (t.IsArrive now).2.lastMinute = now.Minute := by
  simp only [WeeklyHourMinuteTimer.IsArrive, Bool.and_eq_true, decide_eq_true_eq, and_true]
  constructor
  · rintro ⟨⟨⟨h1, h2⟩, h3⟩, h4⟩
    exact ⟨h1.symm, h2.symm, h3.symm, fun h => h4 h.symm⟩
  · rintro ⟨h1, h2, h3, h4⟩
    exact ⟨⟨⟨h1.symm, h2.symm⟩, h3.symm⟩, fun h => h4 h.symm⟩

/-! ## Edge detection over consecutive polls -/

theorem ITimer.IsArriveSeq_length (timer : ITimer) (polls : List Time) :
    (ITimer.IsArriveSeq timer polls).length = polls.length := by
  induction polls generalizing timer with
  | nil => rfl
  | cons a l ih => simp [ITimer.IsArriveSeq, ih]

theorem EveryDayHourTimer_quiet (pre post : List Time) (t : EveryDayHourTimer)
    (hl : t.lastHour = t.dstHour) (hp : ∀ q ∈ pre, q.Hour = t.dstHour) :
    (ITimer.IsArriveSeq (.everyDayHour t) (pre ++ post)).take pre.length =
      List.replicate pre.length false := by
  induction pre generalizing t with
  | nil => simp
  | cons q qs ih =>
    have hq : q.Hour = t.dstHour := hp q (List.mem_cons_self _ _)
    have h1 : (t.IsArrive q).1 = false := by
      simp [EveryDayHourTimer.IsArrive, hl]
    have h2 : (t.IsArrive q).2.lastHour = (t.IsArrive q).2.dstHour := by
      simp [EveryDayHourTimer.IsArrive, hq]
    have h3 : ∀ r ∈ qs, r.Hour = (t.IsArrive q).2.dstHour := by
      intro r hr
      simpa [EveryDayHourTimer.IsArrive] using hp r (List.mem_cons_of_mem _ hr)
    have := ih (t.IsArrive q).2 h2 h3
    simp only [List.cons_append, ITimer.IsArriveSeq, ITimer.IsArrive, List.length_cons,
      List.take_succ_cons, List.replicate_succ, h1]
    exact congrArg (List.cons false) this

/-- C4: an EveryDayHour timer polled consecutively at its target hour is due exactly once,
on the first poll, when its baseline hour differs from the target; when the baseline is the
target hour (as `init` leaves it when run during that hour) it is due on none of these
polls, and on a longer sequence it is not due as long as every poll so far was at the
target hour. -/
theorem EveryDayHourTimer_edge (t : EveryDayHourTimer) (p : Time) (ps : List Time)
    (hp : ∀ q ∈ p :: ps, q.Hour = t.dstHour) :
    (t.lastHour ≠ t.dstHour →
      ITimer.IsArriveSeq (.everyDayHour t) (p :: ps) =
        true :: List.replicate ps.length false) ∧
    (t.lastHour = t.dstHour →
      ITimer.IsArriveSeq (.everyDayHour t) (p :: ps) =
        List.replicate (ps.length + 1) false) ∧
    (∀ cur : Time, cur.Hour = t.dstHour →
      ITimer.IsArriveSeq (.everyDayHour (t.init cur)) (p :: ps) =
        List.replicate (ps.length + 1) false) ∧
    (∀ post : List Time, t.lastHour = t.dstHour →
      (ITimer.IsArriveSeq (.everyDayHour t) ((p :: ps) ++ post)).take (ps.length + 1) =
        List.replicate (ps.length + 1) false) := by
  have hq : p.Hour = t.dstHour := hp p (List.mem_cons_self _ _)
  have key : ∀ s : EveryDayHourTimer, s.dstHour = t.dstHour → s.lastHour = s.dstHour →
      ITimer.IsArriveSeq (.everyDayHour s) (p :: ps) =
        List.replicate (ps.length + 1) false := by
    intro s hd hl
    have h := EveryDayHourTimer_quiet (p :: ps) [] s hl (by rw [hd]; exact hp)
    simp only [List.append_nil, List.length_cons] at h
    rw [← h, List.take_of_length_le]
    rw [ITimer.IsArriveSeq_length]
    simp
  refine ⟨?_, key t rfl, ?_, ?_⟩
  · intro hne
    have h1 : (t.IsArrive p).1 = true := by
      simp only [EveryDayHourTimer.IsArrive, Bool.and_eq_true, decide_eq_true_eq]
      exact ⟨hq.symm, fun h => hne h.symm⟩
    have h2 : (t.IsArrive p).2.lastHour = (t.IsArrive p).2.dstHour := by
      simp [EveryDayHourTimer.IsArrive, hq]
    have h3 : ∀ r ∈ ps, r.Hour = (t.IsArrive p).2.dstHour := by
      intro r hr
      simpa [EveryDayHourTimer.IsArrive] using hp r (List.mem_cons_of_mem _ hr)
    have h := EveryDayHourTimer_quiet ps [] (t.IsArrive p).2 h2 h3
    simp only [List.append_nil] at h
    rw [List.take_of_length_le (by rw [ITimer.IsArriveSeq_length])] at h
    simp only [ITimer.IsArriveSeq, ITimer.IsArrive, h1, h]
  · intro cur hcur
    exact key (t.init cur) rfl (by simp [EveryDayHourTimer.init, hcur])
  · intro post hl
    exact EveryDayHourTimer_quiet (p :: ps) post t hl hp

theorem EveryDayHourTimer_edge_witness :
    ITimer.IsArriveSeq
        (.everyDayHour { base := { timerId := 1, cb := some 0 }, lastHour := 16, dstHour := 17 })
        [⟨100, 1, 17, 0⟩, ⟨103, 1, 17, 0⟩, ⟨106, 1, 17, 0⟩] = [true, false, false] :=
  (EveryDayHourTimer_edge
    { base := { timerId := 1, cb := some 0 }, lastHour := 16, dstHour := 17 }
    ⟨100, 1, 17, 0⟩ [⟨103, 1, 17, 0⟩, ⟨106, 1, 17, 0⟩] (by decide)).1 (by decide)

theorem WeeklyHourTimer_quiet (ps : List Time) (t : WeeklyHourTimer)
    (hl : t.lastHour = t.dstHour) (hp : ∀ q ∈ ps, q.Hour = t.dstHour) :
    ITimer.IsArriveSeq (.weeklyHour t) ps = List.replicate ps.length false := by
  induction ps generalizing t with
  | nil => rfl
  | cons q qs ih =>
    have hq : q.Hour = t.dstHour := hp q (List.mem_cons_self _ _)
    have h1 : (t.IsArrive q).1 = false := by
      simp [WeeklyHourTimer.IsArrive, hl]
    have h2 : (t.IsArrive q).2.lastHour = (t.IsArrive q).2.dstHour := by
      simp [WeeklyHourTimer.IsArrive, hq]
    have h3 : ∀ r ∈ qs, r.Hour = (t.IsArrive q).2.dstHour := by
      intro r hr
      simpa [WeeklyHourTimer.IsArrive] using hp r (List.mem_cons_of_mem _ hr)
    simp only [ITimer.IsArriveSeq, ITimer.IsArrive, List.length_cons, List.replicate_succ, h1]
    exact congrArg (List.cons false) (ih (t.IsArrive q).2 h2 h3)

theorem WeeklyHourMinuteTimer_quiet (ps : List Time) (t : WeeklyHourMinuteTimer)
    (hl : t.lastMinute = t.dstMinute) (hp : ∀ q ∈ ps, q.Minute = t.dstMinute) :
    ITimer.IsArriveSeq (.weeklyHourMinute t) ps = List.replicate ps.length false := by
  induction ps generalizing t with
  | nil => rfl
  | cons q qs ih =>
    have hq : q.Minute = t.dstMinute := hp q (List.mem_cons_self _ _)
    have h1 : (t.IsArrive q).1 = false := by
      simp [WeeklyHourMinuteTimer.IsArrive, hl]
    have h2 : (t.IsArrive q).2.lastMinute = (t.IsArrive q).2.dstMinute := by
      simp [WeeklyHourMinuteTimer.IsArrive, hq]
    have h3 : ∀ r ∈ qs, r.Minute = (t.IsArrive q).2.dstMinute := by
      intro r hr
      simpa [WeeklyHourMinuteTimer.IsArrive] using hp r (List.mem_cons_of_mem _ hr)
    simp only [ITimer.IsArriveSeq, ITimer.IsArrive, List.length_cons, List.replicate_succ, h1]
    exact congrArg (List.cons false) (ih (t.IsArrive q).2 h2 h3)

/-- C7: over consecutive polls that all fall in the target slot of a WeeklyHour timer
(weekday and hour) or of a WeeklyHourMinute timer (weekday, hour and minute), `IsArrive`
returns false on every poll after the first, so it is true on at most one poll and that
poll can only be the first. -/
theorem Weekly_at_most_first (p : Time) (ps : List Time) :
    (∀ t : WeeklyHourTimer,
      (∀ q ∈ p :: ps, q.Weekday = t.dstWeek ∧ q.Hour = t.dstHour) →
      ITimer.IsArriveSeq (.weeklyHour t) (p :: ps) =
        (t.IsArrive p).1 :: List.replicate ps.length false) ∧
    (∀ t : WeeklyHourMinuteTimer,
      (∀ q ∈ p :: ps, q.Weekday = t.dstWeek ∧ q.Hour = t.dstHour ∧ q.Minute = t.dstMinute) →
      ITimer.IsArriveSeq (.weeklyHourMinute t) (p :: ps) =
        (t.IsArrive p).1 :: List.replicate ps.length false) := by
  constructor
  · intro t hp
    have hq := (hp p (List.mem_cons_self _ _)).2
    have h2 : (t.IsArrive p).2.lastHour = (t.IsArrive p).2.dstHour := by
      simp [WeeklyHourTimer.IsArrive, hq]
    have h3 : ∀ r ∈ ps, r.Hour = (t.IsArrive p).2.dstHour := by
      intro r hr
      simpa [WeeklyHourTimer.IsArrive] using (hp r (List.mem_cons_of_mem _ hr)).2
    simp only [ITimer.IsArriveSeq, ITimer.IsArrive]
    exact congrArg _ (WeeklyHourTimer_quiet ps (t.IsArrive p).2 h2 h3)
  · intro t hp
    have hq := (hp p (List.mem_cons_self _ _)).2.2
    have h2 : (t.IsArrive p).2.lastMinute = (t.IsArrive p).2.dstMinute := by
      simp [WeeklyHourMinuteTimer.IsArrive, hq]
    have h3 : ∀ r ∈ ps, r.Minute = (t.IsArrive p).2.dstMinute := by
      intro r hr
      simpa [WeeklyHourMinuteTimer.IsArrive] using (hp r (List.mem_cons_of_mem _ hr)).2.2
    simp only [ITimer.IsArriveSeq, ITimer.IsArrive]
    exact congrArg _ (WeeklyHourMinuteTimer_quiet ps (t.IsArrive p).2 h2 h3)

theorem Weekly_at_most_first_witness :
    ITimer.IsArriveSeq
        (.weeklyHour { base := { timerId := 1, cb := some 0 }, lastWeek := 1, lastHour := 16,
                       dstWeek := 1, dstHour := 17 })
        [⟨100, 1, 17, 0⟩, ⟨103, 1, 17, 0⟩, ⟨106, 1, 17, 1⟩] = [true, false, false] ∧
    ITimer.IsArriveSeq
        (.weeklyHourMinute { base := { timerId := 2, cb := none }, lastWeek := 1,
                             lastHour := 17, lastMinute := 29, dstWeek := 1, dstHour := 17,
                             dstMinute := 30 })
        [⟨100, 1, 17, 30⟩, ⟨103, 1, 17, 30⟩] = [true, false] :=
  ⟨(Weekly_at_most_first ⟨100, 1, 17, 0⟩ [⟨103, 1, 17, 0⟩, ⟨106, 1, 17, 1⟩]).1
      { base := { timerId := 1, cb := some 0 }, lastWeek := 1, lastHour := 16,
        dstWeek := 1, dstHour := 17 } (by decide),
   (Weekly_at_most_first ⟨100, 1, 17, 30⟩ [⟨103, 1, 17, 30⟩]).2
      { base := { timerId := 2, cb := none }, lastWeek := 1, lastHour := 17, lastMinute := 29,
        dstWeek := 1, dstHour := 17, dstMinute := 30 } (by decide)⟩

/-! ## The registry -/

theorem Registry.get_delete (reg : Registry) (k k' : TimerId) :
    Registry.get (Registry.delete reg k) k' = if k' = k then none else Registry.get reg k' := by
  induction reg with
  | nil => simp [Registry.delete, Registry.get]
  | cons e rest ih =>
    obtain ⟨a, v⟩ := e
    unfold Registry.delete at ih ⊢
    by_cases ha : a = k
    · subst ha
      simp only [List.filter_cons, ne_eq, not_true_eq_false, decide_False, Bool.false_eq_true,
        if_false, ih, Registry.get]
      by_cases hk : k' = a
      · simp [hk]
      · have : ¬ a = k' := fun h => hk h.symm
        simp [hk, this]
    · simp only [List.filter_cons, ne_eq, ha, not_false_eq_true, decide_True, if_true,
        Registry.get, ih]
      by_cases hk : k' = k
      · subst hk
        simp [ha]
      · simp [hk]

theorem Registry.get_set (reg : Registry) (k k' : TimerId) (v : ITimer) :
    Registry.get (Registry.set reg k v) k' =
      if k' = k then some v else Registry.get reg k' := by
  unfold Registry.set
  simp only [Registry.get, Registry.get_delete]
  by_cases hk : k' = k
  · simp [hk]
  · have : ¬ k = k' := fun h => hk h.symm
    simp [hk, this]

/-! ## Registration -/

theorem ITimer.GetTimerId_init (timer : ITimer) (cur cur2 : Time) :
    (timer.init cur cur2).GetTimerId = timer.GetTimerId := by
  cases timer <;> rfl

theorem ITimer.GetTimerId_SetTimerId (timer : ITimer) (id : TimerId) :
    (timer.SetTimerId id).GetTimerId = id := by
  cases timer <;> rfl

theorem ITimer.GetTimerId_IsArrive (timer : ITimer) (now : Time) :
    (timer.IsArrive now).2.GetTimerId = timer.GetTimerId := by
  cases timer <;> rfl

theorem ITimer.GetTimerType_IsArrive (timer : ITimer) (now : Time) :
    (timer.IsArrive now).2.GetTimerType = timer.GetTimerType := by
  cases timer <;> rfl

theorem Manager.register_id (m : Manager) (timer : ITimer) (cur cur2 : Time) :
    (m.register timer cur cur2).2.GetTimerId = int32Incr m.timerId := by
  simp [Manager.register, ITimer.GetTimerId_init, ITimer.GetTimerId_SetTimerId]

theorem Manager.register_timerId (m : Manager) (timer : ITimer) (cur cur2 : Time) :
    (m.register timer cur cur2).1.timerId = int32Incr m.timerId := rfl

theorem Manager.register_interval (m : Manager) (timer : ITimer) (cur cur2 : Time) :
    (m.register timer cur cur2).1.interval = m.interval := rfl

theorem Manager.register_get (m : Manager) (timer : ITimer) (cur cur2 : Time) (k : TimerId) :
    Registry.get (m.register timer cur cur2).1.timerMgr k =
      if k = int32Incr m.timerId then some (m.register timer cur cur2).2
      else Registry.get m.timerMgr k := by
  have h := Manager.register_id m timer cur cur2
  simp only [Manager.register] at h ⊢
  rw [Registry.get_set, h]

theorem int32Incr_of_lt (x : Int) (h1 : -2 ^ 31 ≤ x) (h2 : x < 2 ^ 31 - 1) :
    int32Incr x = x + 1 := by
  unfold int32Incr
  omega

/-- C9: `RegisterFixedTimer` with `ts == 0` returns 0 and leaves the manager as it was; with
`ts != 0` it increments the `int32` id counter (by one, as long as the counter is below
the largest `int32`), stores under the new id a Fixed timer with `dstTs = ts` and `lastTs`
the current Unix time, leaves the other entries and the interval alone, and returns the
new id. -/
theorem RegisterFixedTimer_spec (m : Manager) (ts : Int) (cb : Option TimerCB)
    (cur cur2 : Time) :
    m.RegisterFixedTimer 0 cb cur cur2 = (m, 0) ∧
    (ts ≠ 0 →
      (m.RegisterFixedTimer ts cb cur cur2).1.timerId = int32Incr m.timerId ∧
      (-2 ^ 31 ≤ m.timerId → m.timerId < 2 ^ 31 - 1 →
        (m.RegisterFixedTimer ts cb cur cur2).1.timerId = m.timerId + 1) ∧
      (m.RegisterFixedTimer ts cb cur cur2).2 =
        (m.RegisterFixedTimer ts cb cur cur2).1.timerId ∧
      Registry.get (m.RegisterFixedTimer ts cb cur cur2).1.timerMgr
          (m.RegisterFixedTimer ts cb cur cur2).2 =
        some (.fixed { base := { timerId := (m.RegisterFixedTimer ts cb cur cur2).2, cb := cb },
                       lastTs := cur.Unix, dstTs := ts }) ∧
      (∀ k, k ≠ (m.RegisterFixedTimer ts cb cur cur2).2 →
        Registry.get (m.RegisterFixedTimer ts cb cur cur2).1.timerMgr k =
          Registry.get m.timerMgr k) ∧
      (m.RegisterFixedTimer ts cb cur cur2).1.interval = m.interval) := by
  refine ⟨by simp [Manager.RegisterFixedTimer], ?_⟩
  intro hts
  simp only [Manager.RegisterFixedTimer, hts, if_false, Manager.register_timerId,
    Manager.register_id, Manager.register_get, Manager.register_interval, if_true, true_and,
    and_true]
  refine ⟨fun h1 h2 => int32Incr_of_lt _ h1 h2, rfl, ?_⟩
  intro k hk
  simp [hk]

theorem RegisterFixedTimer_spec_witness :
    (NewTaskTimerMgr.RegisterFixedTimer 100 (some 7) ⟨87, 1, 9, 30⟩ ⟨87, 1, 9, 30⟩).2 = 1 ∧
    Registry.get
        (NewTaskTimerMgr.RegisterFixedTimer 100 (some 7) ⟨87, 1, 9, 30⟩ ⟨87, 1, 9, 30⟩).1.timerMgr
        1 =
      some (.fixed { base := { timerId := 1, cb := some 7 }, lastTs := 87, dstTs := 100 }) := by
  have h := (RegisterFixedTimer_spec NewTaskTimerMgr 100 (some 7) ⟨87, 1, 9, 30⟩
    ⟨87, 1, 9, 30⟩).2 (by decide)
  have h1 := h.2.1 (by decide) (by decide)
  have h2 := h.2.2.1
  have h3 := h.2.2.2.1
  have e : (NewTaskTimerMgr.RegisterFixedTimer 100 (some 7) ⟨87, 1, 9, 30⟩
      ⟨87, 1, 9, 30⟩).2 = 1 := by
    rw [h2, h1]
    rfl
  rw [e] at h3
  exact ⟨e, h3⟩

/-- C10: the three recurring registrations store the timer with whatever hour, minute and
weekday they are given, and for a time `now` with hour in 0..23, minute in 0..59 and
weekday in 0..6, `IsArrive(now)` is false, whatever the last-observed fields, for an
EveryDayHour or WeeklyHour timer with target hour outside 0..23, for a WeeklyHour or
WeeklyHourMinute timer with target weekday outside 0..6, and for a WeeklyHourMinute timer
with target hour outside 0..23 or target minute outside 0..59. -/
theorem out_of_range_never_due (now : Time)
    (hH : 0 ≤ now.Hour ∧ now.Hour ≤ 23) (hM : 0 ≤ now.Minute ∧ now.Minute ≤ 59)
    (hW : 0 ≤ now.Weekday ∧ now.Weekday ≤ 6) :
    (∀ (m : Manager) (hour : Int) (cb : Option TimerCB) (cur cur2 : Time),
      Registry.get (m.RegisterEveryDayHourTimer hour cb cur cur2).1.timerMgr
          (m.RegisterEveryDayHourTimer hour cb cur cur2).2 =
        some (.everyDayHour
          { base := { timerId := (m.RegisterEveryDayHourTimer hour cb cur cur2).2, cb := cb },
            lastHour := cur.Hour, dstHour := hour })) ∧
    (∀ (m : Manager) (week hour : Int) (cb : Option TimerCB) (cur cur2 : Time),
      Registry.get (m.RegisterWeeklyHourTimer week hour cb cur cur2).1.timerMgr
          (m.RegisterWeeklyHourTimer week hour cb cur cur2).2 =
        some (.weeklyHour
          { base := { timerId := (m.RegisterWeeklyHourTimer week hour cb cur cur2).2, cb := cb },
            lastWeek := cur.Weekday, lastHour := cur2.Hour, dstWeek := week,
            dstHour := hour })) ∧
    (∀ (m : Manager) (week hour minute : Int) (cb : Option TimerCB) (cur cur2 : Time),
      Registry.get (m.RegisterWeeklyHourMinuteTimer week hour minute cb cur cur2).1.timerMgr
          (m.RegisterWeeklyHourMinuteTimer week hour minute cb cur cur2).2 =
        some (.weeklyHourMinute
          { base := { timerId := (m.RegisterWeeklyHourMinuteTimer week hour minute cb cur
                        cur2).2, cb := cb },
            lastWeek := cur.Weekday, lastHour := cur.Hour, lastMinute := cur.Minute,
            dstWeek := week, dstHour := hour, dstMinute := minute })) ∧
    (∀ t : EveryDayHourTimer, (t.dstHour < 0 ∨ 23 < t.dstHour) →
      (ITimer.IsArrive (.everyDayHour t) now).1 = false) ∧
    (∀ t : WeeklyHourTimer,
      (t.dstHour < 0 ∨ 23 < t.dstHour ∨ t.dstWeek < 0 ∨ 6 < t.dstWeek) →
      (ITimer.IsArrive (.weeklyHour t) now).1 = false) ∧
    (∀ t : WeeklyHourMinuteTimer,
      (t.dstWeek < 0 ∨ 6 < t.dstWeek ∨ t.dstHour < 0 ∨ 23 < t.dstHour ∨
        t.dstMinute < 0 ∨ 59 < t.dstMinute) →
      (ITimer.IsArrive (.weeklyHourMinute t) now).1 = false) := by
  refine ⟨?_, ?_, ?_, ?_, ?_, ?_⟩
  · intro m hour cb cur cur2
    simp only [Manager.RegisterEveryDayHourTimer, Manager.register_id, Manager.register_get,
      if_true]
    rfl
  · intro m week hour cb cur cur2
    simp only [Manager.RegisterWeeklyHourTimer, Manager.register_id, Manager.register_get,
      if_true]
    rfl
  · intro m week hour minute cb cur cur2
    simp only [Manager.RegisterWeeklyHourMinuteTimer, Manager.register_id,
      Manager.register_get, if_true]
    rfl
  · intro t h
    have hne : ¬ t.dstHour = now.Hour := by omega
    simp [ITimer.IsArrive, EveryDayHourTimer.IsArrive, hne]
  · intro t h
    have hne : ¬ (now.Weekday = t.dstWeek ∧ t.dstHour = now.Hour) := by omega
    simp only [ITimer.IsArrive, WeeklyHourTimer.IsArrive]
    rw [Bool.eq_false_iff]
    intro hc
    simp only [Bool.and_eq_true, decide_eq_true_eq] at hc
    exact hne hc.1
  · intro t h
    have hne : ¬ (t.dstWeek = now.Weekday ∧ t.dstHour = now.Hour ∧
        t.dstMinute = now.Minute) := by omega
    simp only [ITimer.IsArrive, WeeklyHourMinuteTimer.IsArrive]
    rw [Bool.eq_false_iff]
    intro hc
    simp only [Bool.and_eq_true, decide_eq_true_eq] at hc
    exact hne ⟨hc.1.1.1, hc.1.1.2, hc.1.2⟩

theorem out_of_range_never_due_witness :
    (ITimer.IsArrive
        (.everyDayHour { base := { timerId := 1, cb := some 0 }, lastHour := 3, dstHour := 24 })
        ⟨100, 1, 17, 30⟩).1 = false :=
  (out_of_range_never_due ⟨100, 1, 17, 30⟩ (by decide) (by decide) (by decide)).2.2.2.1
    { base := { timerId := 1, cb := some 0 }, lastHour := 3, dstHour := 24 } (by decide)

/-! ## Well-formed registries -/

theorem Registry.mem_of_get (reg : Registry) (k : TimerId) (v : ITimer)
    (h : Registry.get reg k = some v) : (k, v) ∈ reg := by
  induction reg with
  | nil => simp [Registry.get] at h
  | cons e rest ih =>
    obtain ⟨a, w⟩ := e
    simp only [Registry.get] at h
    by_cases ha : a = k
    · simp only [ha, if_true, Option.some.injEq] at h
      simp [ha, h]
    · simp only [ha, if_false] at h
      exact List.mem_cons_of_mem _ (ih h)

theorem Registry.mem_keys_iff (reg : Registry) (k : TimerId) :
    k ∈ Registry.keys reg ↔ ∃ v, Registry.get reg k = some v := by
  induction reg with
  | nil => simp [Registry.keys, Registry.get]
  | cons e rest ih =>
    obtain ⟨a, w⟩ := e
    simp only [Registry.keys, List.map_cons, List.mem_cons, Registry.get] at ih ⊢
    by_cases ha : a = k
    · simp [ha]
    · have : ¬ k = a := fun h => ha h.symm
      simp [ha, this, ih]

theorem Registry.get_eq_none_iff (reg : Registry) (k : TimerId) :
    Registry.get reg k = none ↔ k ∉ Registry.keys reg := by
  rw [Registry.mem_keys_iff]
  cases h : Registry.get reg k <;> simp

theorem Registry.WF.id_eq {reg : Registry} (h : Registry.WF reg) {k : TimerId} {v : ITimer}
    (hg : Registry.get reg k = some v) : v.GetTimerId = k :=
  h.2 (k, v) (Registry.mem_of_get reg k v hg)

theorem Registry.WF_nil : Registry.WF [] := by
  simp [Registry.WF, Registry.keys]

theorem Registry.keys_delete (reg : Registry) (k : TimerId) :
    Registry.keys (Registry.delete reg k) =
      (Registry.keys reg).filter (fun a => decide (a ≠ k)) := by
  unfold Registry.keys Registry.delete
  rw [List.filter_map]
  rfl

theorem Registry.WF_delete {reg : Registry} (h : Registry.WF reg) (k : TimerId) :
    Registry.WF (Registry.delete reg k) := by
  refine ⟨?_, ?_⟩
  · rw [Registry.keys_delete]
    exact h.1.filter _
  · intro e he
    exact h.2 e (List.mem_filter.mp he).1

theorem Registry.WF_set {reg : Registry} (h : Registry.WF reg) (k : TimerId) (v : ITimer)
    (hv : v.GetTimerId = k) : Registry.WF (Registry.set reg k v) := by
  have hd := Registry.WF_delete h k
  refine ⟨?_, ?_⟩
  · show (k :: Registry.keys (Registry.delete reg k)).Nodup
    refine List.nodup_cons.mpr ⟨?_, hd.1⟩
    rw [Registry.keys_delete]
    simp
  · intro e he
    rcases List.mem_cons.mp he with rfl | he
    · exact hv
    · exact hd.2 e he

/-! ## One tick -/

theorem loopIds_cons (now : Time) (reg : Registry) (id : TimerId) (ids : List TimerId)
    (timer : ITimer) (hg : Registry.get reg id = some timer) :
    loopIds now reg (id :: ids) =
      match loopIds now (loopBodyReg now reg id timer) ids with
      | none => none
      | some (reg3, calls) =>
        some (reg3,
          (if (timer.IsArrive now).1 then (timer.IsArrive now).2.Callback now else []) ++ calls)
      := by
  simp only [loopIds, hg, loopBodyReg]
  by_cases h1 : (timer.IsArrive now).1 = true
  · by_cases h2 : (timer.IsArrive now).2.GetTimerType = TimerTypeFixed
    · simp [h1, h2]
    · simp [h1, h2]
  · simp only [h1, false_and, if_false, Bool.false_eq_true]
    cases loopIds now (Registry.set reg id (timer.IsArrive now).2) ids with
    | none => rfl
    | some r => simp

theorem loopBodyReg_get (now : Time) (reg : Registry) (id : TimerId) (timer : ITimer)
    (hid : timer.GetTimerId = id) (k : TimerId) :
    Registry.get (loopBodyReg now reg id timer) k =
      if k = id then
        (if (timer.IsArrive now).1 = true ∧
            (timer.IsArrive now).2.GetTimerType = TimerTypeFixed
          then none else some (timer.IsArrive now).2)
      else Registry.get reg k := by
  unfold loopBodyReg
  rw [ITimer.GetTimerId_IsArrive, hid]
  by_cases hc : (timer.IsArrive now).1 = true ∧
      (timer.IsArrive now).2.GetTimerType = TimerTypeFixed
  · simp only [hc, and_self, if_true, Registry.get_delete, Registry.get_set]
    by_cases hk : k = id <;> simp [hk]
  · simp only [hc, if_false, Registry.get_set]

theorem loopBodyReg_WF (now : Time) {reg : Registry} (h : Registry.WF reg) (id : TimerId)
    (timer : ITimer) (hid : timer.GetTimerId = id) :
    Registry.WF (loopBodyReg now reg id timer) := by
  have hs : Registry.WF (Registry.set reg id (timer.IsArrive now).2) :=
    Registry.WF_set h id _ (by rw [ITimer.GetTimerId_IsArrive, hid])
  unfold loopBodyReg
  split
  · exact Registry.WF_delete hs _
  · exact hs

theorem dueCalls_congr (now : Time) (reg reg' : Registry) (ids : List TimerId)
    (h : ∀ k ∈ ids, Registry.get reg' k = Registry.get reg k) :
    dueCalls now reg' ids = dueCalls now reg ids := by
  induction ids with
  | nil => rfl
  | cons id ids ih =>
    simp only [dueCalls, dueCallsOf]
    rw [h id (List.mem_cons_self _ _), ih (fun k hk => h k (List.mem_cons_of_mem _ hk))]

/-- One run of the loop of `loopTimer` over distinct ids that are all registered: it does
not panic, it makes the calls `dueCalls`, and it leaves the entries `tickGet`. -/
theorem loopIds_spec (now : Time) (ids : List TimerId) (reg : Registry)
    (hwf : Registry.WF reg) (hnd : ids.Nodup)
    (hin : ∀ id ∈ ids, ∃ t, Registry.get reg id = some t) :
    ∃ reg', loopIds now reg ids = some (reg', dueCalls now reg ids) ∧ Registry.WF reg' ∧
      ∀ k, Registry.get reg' k = tickGet now reg ids k := by
  induction ids generalizing reg with
  | nil =>
    exact ⟨reg, rfl, hwf, fun k => by simp [tickGet]⟩
  | cons id ids ih =>
    obtain ⟨t, ht⟩ := hin id (List.mem_cons_self _ _)
    have hid : t.GetTimerId = id := hwf.id_eq ht
    have hnotin : id ∉ ids := (List.nodup_cons.mp hnd).1
    have hsame : ∀ k ∈ ids, Registry.get (loopBodyReg now reg id t) k = Registry.get reg k := by
      intro k hk
      have hne : k ≠ id := fun h => hnotin (h ▸ hk)
      rw [loopBodyReg_get now reg id t hid, if_neg hne]
    obtain ⟨reg', hrun, hwf', hget⟩ := ih (loopBodyReg now reg id t)
      (loopBodyReg_WF now hwf id t hid) (List.nodup_cons.mp hnd).2
      (fun k hk => by
        rw [hsame k hk]
        exact hin k (List.mem_cons_of_mem _ hk))
    refine ⟨reg', ?_, hwf', ?_⟩
    · rw [loopIds_cons now reg id ids t ht, hrun, dueCalls_congr now reg _ ids hsame]
      simp only [dueCalls, dueCallsOf, ht]
    · intro k
      rw [hget k]
      unfold tickGet
      by_cases hk : k = id
      · subst hk
        simp only [hnotin, if_false, List.mem_cons, true_or, if_true, ht]
        rw [loopBodyReg_get now reg k t hid, if_pos rfl]
      · have hmem : k ∈ id :: ids ↔ k ∈ ids := by simp [hk]
        rw [loopBodyReg_get now reg id t hid, if_neg hk]
        simp only [hmem]

theorem getSortedTimerIdArray_perm (m : Manager) :
    List.Perm m.getSortedTimerIdArray (Registry.keys m.timerMgr) :=
  List.perm_insertionSort _ _

/-- The entry under `k` after one tick, read off the registry held before the tick. -/
theorem tickGet_sorted (now : Time) (m : Manager) (k : TimerId) :
    tickGet now m.timerMgr m.getSortedTimerIdArray k =
      match Registry.get m.timerMgr k with
      | some t =>
        if (t.IsArrive now).1 = true ∧ (t.IsArrive now).2.GetTimerType = TimerTypeFixed
        then none else some (t.IsArrive now).2
      | none => none := by
  unfold tickGet
  by_cases hk : k ∈ m.getSortedTimerIdArray
  · simp only [hk, if_true]
  · simp only [hk, if_false]
    have : k ∉ Registry.keys m.timerMgr :=
      fun h => hk ((getSortedTimerIdArray_perm m).mem_iff.mpr h)
    rw [(Registry.get_eq_none_iff _ _).mpr this]

/-- One tick on a well-formed registry does not panic; it makes the calls `dueCalls` over
the sorted ids, keeps the registry well-formed and the counter and interval unchanged. -/
theorem loopTimer_spec (m : Manager) (now : Time) (hwf : Registry.WF m.timerMgr) :
    ∃ m', m.loopTimer now = some (m', dueCalls now m.timerMgr m.getSortedTimerIdArray) ∧
      Registry.WF m'.timerMgr ∧ m'.timerId = m.timerId ∧ m'.interval = m.interval ∧
      ∀ k, Registry.get m'.timerMgr k =
        match Registry.get m.timerMgr k with
        | some t =>
          if (t.IsArrive now).1 = true ∧ (t.IsArrive now).2.GetTimerType = TimerTypeFixed
          then none else some (t.IsArrive now).2
        | none => none := by
  have hperm := getSortedTimerIdArray_perm m
  obtain ⟨reg', hrun, hwf', hget⟩ := loopIds_spec now m.getSortedTimerIdArray m.timerMgr hwf
    (hperm.nodup_iff.mpr hwf.1)
    (fun id hid => (Registry.mem_keys_iff _ _).mp (hperm.mem_iff.mp hid))
  refine ⟨{ m with timerMgr := reg' }, ?_, hwf', rfl, rfl, ?_⟩
  · simp only [Manager.loopTimer, hrun]
  · intro k
    rw [← tickGet_sorted]
    exact hget k

theorem ITimer.Callback_timerId (timer : ITimer) (now : Time) :
    ∀ c ∈ timer.Callback now, c.timerId = timer.GetTimerId := by
  intro c hc
  cases timer with
  | fixed t =>
    simp only [ITimer.Callback, timerBase.Callback] at hc
    cases hcb : t.base.cb <;> simp [hcb] at hc
    subst hc; rfl
  | everyDayHour t =>
    simp only [ITimer.Callback, timerBase.Callback] at hc
    cases hcb : t.base.cb <;> simp [hcb] at hc
    subst hc; rfl
  | weeklyHour t =>
    simp only [ITimer.Callback, timerBase.Callback] at hc
    cases hcb : t.base.cb <;> simp [hcb] at hc
    subst hc; rfl
  | weeklyHourMinute t =>
    simp only [ITimer.Callback, timerBase.Callback] at hc
    cases hcb : t.base.cb <;> simp [hcb] at hc
    subst hc; rfl

theorem dueCallsOf_timerId (now : Time) {reg : Registry} (hwf : Registry.WF reg)
    (id : TimerId) : ∀ c ∈ dueCallsOf now reg id, c.timerId = id := by
  intro c hc
  unfold dueCallsOf at hc
  cases hg : Registry.get reg id with
  | none => simp [hg] at hc
  | some t =>
    simp only [hg] at hc
    by_cases hd : (t.IsArrive now).1 = true
    · simp only [hd, if_true] at hc
      rw [ITimer.Callback_timerId _ now c hc, ITimer.GetTimerId_IsArrive, hwf.id_eq hg]
    · simp [hd] at hc

/-- The calls of one loop that were made by the timer `k`. -/
theorem dueCalls_filter (now : Time) {reg : Registry} (hwf : Registry.WF reg)
    (k : TimerId) (ids : List TimerId) (hnd : ids.Nodup) :
    (dueCalls now reg ids).filter (fun c => decide (c.timerId = k)) =
      if k ∈ ids then dueCallsOf now reg k else [] := by
  induction ids with
  | nil => simp [dueCalls]
  | cons id ids ih =>
    have hnotin : id ∉ ids := (List.nodup_cons.mp hnd).1
    rw [dueCalls, List.filter_append, ih (List.nodup_cons.mp hnd).2]
    by_cases hk : id = k
    · subst hk
      have hall : (dueCallsOf now reg id).filter (fun c => decide (c.timerId = id)) =
          dueCallsOf now reg id :=
        List.filter_eq_self.mpr (fun c hc => by
          simpa using dueCallsOf_timerId now hwf id c hc)
      simp [hall, hnotin]
    · have hnone : (dueCallsOf now reg id).filter (fun c => decide (c.timerId = k)) = [] :=
        List.filter_eq_nil_iff.mpr (fun c hc => by
          have := dueCallsOf_timerId now hwf id c hc
          simp [this, hk])
      have hk' : ¬ k = id := fun h => hk h.symm
      simp [hnone, hk']

/-- One tick of `loopTimer` on a well-formed registry: it completes, and each entry and the
calls made by each timer are determined by the entry held before the tick. -/
theorem loopTimer_tick (m : Manager) (now : Time) (hwf : Registry.WF m.timerMgr) :
    ∃ m' calls, m.loopTimer now = some (m', calls) ∧
      Registry.WF m'.timerMgr ∧ m'.timerId = m.timerId ∧ m'.interval = m.interval ∧
      (∀ k, Registry.get m'.timerMgr k =
        match Registry.get m.timerMgr k with
        | some t =>
          if (t.IsArrive now).1 = true ∧ (t.IsArrive now).2.GetTimerType = TimerTypeFixed
          then none else some (t.IsArrive now).2
        | none => none) ∧
      ∀ k, calls.filter (fun c => decide (c.timerId = k)) = dueCallsOf now m.timerMgr k := by
  obtain ⟨m', hrun, hwf', hid, hint, hget⟩ := loopTimer_spec m now hwf
  refine ⟨m', _, hrun, hwf', hid, hint, hget, ?_⟩
  intro k
  have hperm := getSortedTimerIdArray_perm m
  rw [dueCalls_filter now hwf k _ (hperm.nodup_iff.mpr hwf.1)]
  by_cases hk : k ∈ m.getSortedTimerIdArray
  · simp [hk]
  · have : k ∉ Registry.keys m.timerMgr := fun h => hk (hperm.mem_iff.mpr h)
    simp [hk, dueCallsOf, (Registry.get_eq_none_iff _ _).mpr this]

/-! ## A Fixed timer over a sequence of ticks -/

theorem timerRoutine_append (m : Manager) (l1 l2 : List Time) :
    m.timerRoutine (l1 ++ l2) =
      match m.timerRoutine l1 with
      | none => none
      | some (m1, c1) =>
        match m1.timerRoutine l2 with
        | none => none
        | some (m2, c2) => some (m2, c1 ++ c2) := by
  induction l1 generalizing m with
  | nil =>
    simp only [List.nil_append, Manager.timerRoutine]
    cases m.timerRoutine l2 with
    | none => rfl
    | some r => simp
  | cons p l1 ih =>
    show Manager.timerRoutine m (p :: (l1 ++ l2)) = _
    simp only [Manager.timerRoutine]
    cases m.loopTimer p with
    | none => rfl
    | some r =>
      obtain ⟨m1, c1⟩ := r
      simp only [ih m1]
      cases m1.timerRoutine l1 with
      | none => rfl
      | some r1 =>
        obtain ⟨m2, c2⟩ := r1
        simp only
        cases m2.timerRoutine l2 with
        | none => rfl
        | some r2 => simp

/-- Ticks never invoke the callback of an id that is not registered, and never register
it. -/
theorem timerRoutine_absent (id : TimerId) (polls : List Time) (m : Manager)
    (hwf : Registry.WF m.timerMgr) (hg : Registry.get m.timerMgr id = none) :
    ∃ m' calls, m.timerRoutine polls = some (m', calls) ∧ Registry.WF m'.timerMgr ∧
      Registry.get m'.timerMgr id = none ∧
      calls.filter (fun c => decide (c.timerId = id)) = [] := by
  induction polls generalizing m with
  | nil => exact ⟨m, [], rfl, hwf, hg, rfl⟩
  | cons p ps ih =>
    obtain ⟨m1, c1, hrun, hwf1, -, -, hget, hcalls⟩ := loopTimer_tick m p hwf
    have hg1 : Registry.get m1.timerMgr id = none := by rw [hget id, hg]
    obtain ⟨m2, c2, hrun2, hwf2, hg2, hc2⟩ := ih m1 hwf1 hg1
    refine ⟨m2, c1 ++ c2, ?_, hwf2, hg2, ?_⟩
    · simp only [Manager.timerRoutine, hrun, hrun2]
    · rw [List.filter_append, hc2, hcalls id]
      simp [dueCallsOf, hg]

/-- While every tick is before the target, a Fixed timer stays registered, is not invoked
and keeps its last-observed timestamp below the target. -/
theorem timerRoutine_wait (id : TimerId) (polls : List Time) (m : Manager) (ft : FixedTimer)
    (hwf : Registry.WF m.timerMgr) (hg : Registry.get m.timerMgr id = some (.fixed ft))
    (hlast : ft.lastTs < ft.dstTs) (hp : ∀ q ∈ polls, q.Unix < ft.dstTs) :
    ∃ m' calls ft', m.timerRoutine polls = some (m', calls) ∧ Registry.WF m'.timerMgr ∧
      Registry.get m'.timerMgr id = some (.fixed ft') ∧ ft'.base = ft.base ∧
      ft'.dstTs = ft.dstTs ∧ ft'.lastTs < ft'.dstTs ∧
      calls.filter (fun c => decide (c.timerId = id)) = [] := by
  induction polls generalizing m ft with
  | nil => exact ⟨m, [], ft, rfl, hwf, hg, rfl, rfl, hlast, rfl⟩
  | cons p ps ih =>
    have hpT : p.Unix < ft.dstTs := hp p (List.mem_cons_self _ _)
    have hnd : (ITimer.IsArrive (.fixed ft) p).1 = false := by
      have : ¬ ft.dstTs ≤ p.Unix := by omega
      simp [ITimer.IsArrive, FixedTimer.IsArrive, this]
    obtain ⟨m1, c1, hrun, hwf1, -, -, hget, hcalls⟩ := loopTimer_tick m p hwf
    have hg1 : Registry.get m1.timerMgr id = some (.fixed (ft.IsArrive p).2) := by
      rw [hget id, hg]
      simp only [hnd, Bool.false_eq_true, false_and, if_false]
      rfl
    obtain ⟨m2, c2, ft2, hrun2, hwf2, hg2, hb2, hd2, hl2, hc2⟩ :=
      ih m1 (ft.IsArrive p).2 hwf1 hg1 (by simpa [FixedTimer.IsArrive] using hpT)
        (fun q hq => by simpa [FixedTimer.IsArrive] using hp q (List.mem_cons_of_mem _ hq))
    refine ⟨m2, c1 ++ c2, ft2, ?_, hwf2, hg2, ?_, ?_, hl2, ?_⟩
    · simp only [Manager.timerRoutine, hrun, hrun2]
    · rw [hb2]; rfl
    · rw [hd2]; rfl
    · rw [List.filter_append, hc2, hcalls id]
      simp [dueCallsOf, hg, hnd]

/-- The tick on which the target is reached: the callback of the Fixed timer is invoked
once and the timer is removed. -/
theorem loopTimer_fire (id : TimerId) (m : Manager) (ft : FixedTimer) (c : TimerCB) (p : Time)
    (hwf : Registry.WF m.timerMgr) (hg : Registry.get m.timerMgr id = some (.fixed ft))
    (hcb : ft.base.cb = some c) (hlast : ft.lastTs < ft.dstTs) (hp : ft.dstTs ≤ p.Unix) :
    ∃ m' calls, m.loopTimer p = some (m', calls) ∧ Registry.WF m'.timerMgr ∧
      Registry.get m'.timerMgr id = none ∧
      calls.filter (fun c => decide (c.timerId = id)) =
        [{ timerId := id, cb := c, now := p }] := by
  have hd : (ITimer.IsArrive (.fixed ft) p).1 = true := by
    simp [ITimer.IsArrive, FixedTimer.IsArrive, hlast, hp]
  have hid : ft.base.timerId = id := hwf.id_eq hg
  obtain ⟨m1, c1, hrun, hwf1, -, -, hget, hcalls⟩ := loopTimer_tick m p hwf
  refine ⟨m1, c1, hrun, hwf1, ?_, ?_⟩
  · rw [hget id, hg]
    simp only [hd, true_and]
    exact if_pos rfl
  · rw [hcalls id]
    simp only [dueCallsOf, hg, hd, if_true]
    simp [ITimer.IsArrive, ITimer.Callback, timerBase.Callback, FixedTimer.IsArrive, hcb, hid]

/-- C1: a Fixed timer registered under `id` with a callback and with baseline
`lastTs < dstTs`, polled by `loopTimer` at the times `polls` in order: if no poll reaches
the target the callback is not invoked; otherwise it is invoked exactly once, on the first
poll `p` with `p.Unix >= dstTs`, not before and not after, and right after that poll `id`
is absent from the registry. -/
theorem FixedTimer_fires_once (m : Manager) (id : TimerId) (ft : FixedTimer) (c : TimerCB)
    (polls : List Time)
    (hwf : Registry.WF m.timerMgr) (hg : Registry.get m.timerMgr id = some (.fixed ft))
    (hcb : ft.base.cb = some c) (hlast : ft.lastTs < ft.dstTs) :
    ((∀ q ∈ polls, q.Unix < ft.dstTs) →
      ∃ m' calls, m.timerRoutine polls = some (m', calls) ∧
        calls.filter (fun c => decide (c.timerId = id)) = []) ∧
    (∀ (pre : List Time) (p : Time) (post : List Time), polls = pre ++ p :: post →
      (∀ q ∈ pre, q.Unix < ft.dstTs) → ft.dstTs ≤ p.Unix →
      ∃ m1 c1 m2 c2 m3 c3,
        m.timerRoutine pre = some (m1, c1) ∧
        m1.loopTimer p = some (m2, c2) ∧
        m2.timerRoutine post = some (m3, c3) ∧
        m.timerRoutine polls = some (m3, c1 ++ c2 ++ c3) ∧
        c1.filter (fun c => decide (c.timerId = id)) = [] ∧
        c2.filter (fun c => decide (c.timerId = id)) =
          [{ timerId := id, cb := c, now := p }] ∧
        c3.filter (fun c => decide (c.timerId = id)) = [] ∧
        (c1 ++ c2 ++ c3).filter (fun c => decide (c.timerId = id)) =
          [{ timerId := id, cb := c, now := p }] ∧
        Registry.get m2.timerMgr id = none) := by
  constructor
  · intro hall
    obtain ⟨m', calls, -, hrun, -, -, -, -, -, hc⟩ :=
      timerRoutine_wait id polls m ft hwf hg hlast hall
    exact ⟨m', calls, hrun, hc⟩
  · intro pre p post hpolls hpre hp
    obtain ⟨m1, c1, ft1, hrun1, hwf1, hg1, hb1, hd1, hl1, hc1⟩ :=
      timerRoutine_wait id pre m ft hwf hg hlast hpre
    obtain ⟨m2, c2, hrun2, hwf2, hg2, hc2⟩ :=
      loopTimer_fire id m1 ft1 c p hwf1 hg1 (by rw [hb1]; exact hcb) hl1 (by rw [hd1]; exact hp)
    obtain ⟨m3, c3, hrun3, -, -, hc3⟩ := timerRoutine_absent id post m2 hwf2 hg2
    refine ⟨m1, c1, m2, c2, m3, c3, hrun1, hrun2, hrun3, ?_, hc1, hc2, hc3, ?_, hg2⟩
    · rw [hpolls, timerRoutine_append, hrun1]
      simp only [Manager.timerRoutine, hrun2, hrun3, List.append_assoc]
    · rw [List.filter_append, List.filter_append, hc1, hc2, hc3]
      rfl

theorem FixedTimer_fires_once_witness :
    ∃ m3 calls,
      Manager.timerRoutine
          (NewTaskTimerMgr.RegisterFixedTimer 100 (some 7) ⟨87, 1, 9, 30⟩ ⟨87, 1, 9, 30⟩).1
          [⟨90, 1, 9, 30⟩, ⟨93, 1, 9, 30⟩, ⟨96, 1, 9, 30⟩, ⟨99, 1, 9, 30⟩, ⟨102, 1, 9, 30⟩,
            ⟨105, 1, 9, 30⟩] = some (m3, calls) ∧
      calls.filter (fun c => decide (c.timerId = 1)) =
        [{ timerId := 1, cb := 7, now := ⟨102, 1, 9, 30⟩ }] := by
  obtain ⟨m1, c1, m2, c2, m3, c3, -, -, -, hrun, -, -, -, hc, -⟩ :=
    (FixedTimer_fires_once
      (NewTaskTimerMgr.RegisterFixedTimer 100 (some 7) ⟨87, 1, 9, 30⟩ ⟨87, 1, 9, 30⟩).1 1
      { base := { timerId := 1, cb := some 7 }, lastTs := 87, dstTs := 100 } 7
      [⟨90, 1, 9, 30⟩, ⟨93, 1, 9, 30⟩, ⟨96, 1, 9, 30⟩, ⟨99, 1, 9, 30⟩, ⟨102, 1, 9, 30⟩,
        ⟨105, 1, 9, 30⟩]
      (by decide) (by decide) rfl (by decide)).2
      [⟨90, 1, 9, 30⟩, ⟨93, 1, 9, 30⟩, ⟨96, 1, 9, 30⟩, ⟨99, 1, 9, 30⟩] ⟨102, 1, 9, 30⟩
      [⟨105, 1, 9, 30⟩] rfl (by decide) (by decide)
  exact ⟨m3, _, hrun, hc⟩

/-! ## Identifiers over a sequence of calls -/

theorem Manager.register_WF (m : Manager) (timer : ITimer) (cur cur2 : Time)
    (hwf : Registry.WF m.timerMgr) : Registry.WF (m.register timer cur cur2).1.timerMgr := by
  simp only [Manager.register]
  exact Registry.WF_set hwf _ _ rfl

/-- One call on a manager with a well-formed registry completes and keeps the registry
well-formed; a registration that stores a timer returns the incremented counter, and
every other call leaves the counter alone and returns no id. -/
theorem Manager.step_spec (m : Manager) (op : Op) (hwf : Registry.WF m.timerMgr) :
    ∃ m' r, m.step op = some (m', r) ∧ Registry.WF m'.timerMgr ∧
      (op.stores = true → r = some (int32Incr m.timerId) ∧ m'.timerId = int32Incr m.timerId) ∧
      (op.stores = false → r = none ∧ m'.timerId = m.timerId) := by
  cases op with
  | RegisterFixedTimer ts cb cur cur2 =>
    by_cases hts : ts = 0
    · refine ⟨m, none, ?_, hwf, ?_, ?_⟩
      · simp [Manager.step, Manager.RegisterFixedTimer, hts]
      · simp [Op.stores, hts]
      · simp
    · refine ⟨_, _, rfl, ?_, ?_, ?_⟩
      · simp only [Manager.RegisterFixedTimer, hts, if_false]
        exact Manager.register_WF _ _ _ _ hwf
      · intro _
        simp only [Manager.RegisterFixedTimer, hts, if_false, Manager.register_id,
          Manager.register_timerId, and_self]
      · simp [Op.stores, hts]
  | RegisterEveryDayHourTimer hour cb cur cur2 =>
    refine ⟨_, _, rfl, Manager.register_WF _ _ _ _ hwf, ?_, ?_⟩
    · intro _
      simp only [Manager.RegisterEveryDayHourTimer, Manager.register_id,
        Manager.register_timerId, and_self]
    · simp [Op.stores]
  | RegisterWeeklyHourTimer week hour cb cur cur2 =>
    refine ⟨_, _, rfl, Manager.register_WF _ _ _ _ hwf, ?_, ?_⟩
    · intro _
      simp only [Manager.RegisterWeeklyHourTimer, Manager.register_id,
        Manager.register_timerId, and_self]
    · simp [Op.stores]
  | RegisterWeeklyHourMinuteTimer week hour minute cb cur cur2 =>
    refine ⟨_, _, rfl, Manager.register_WF _ _ _ _ hwf, ?_, ?_⟩
    · intro _
      simp only [Manager.RegisterWeeklyHourMinuteTimer, Manager.register_id,
        Manager.register_timerId, and_self]
    · simp [Op.stores]
  | UnRegisterById id =>
    exact ⟨_, _, rfl, Registry.WF_delete hwf _, by simp [Op.stores], fun _ => ⟨rfl, rfl⟩⟩
  | UnRegister timer =>
    exact ⟨_, _, rfl, Registry.WF_delete hwf _, by simp [Op.stores], fun _ => ⟨rfl, rfl⟩⟩
  | Clear =>
    exact ⟨_, _, rfl, Registry.WF_nil, by simp [Op.stores], fun _ => ⟨rfl, rfl⟩⟩
  | SetInterval interval =>
    exact ⟨_, _, rfl, hwf, by simp [Op.stores], fun _ => ⟨rfl, rfl⟩⟩
  | loopTimer now =>
    obtain ⟨m', calls, hrun, hwf', hid, -, -, -⟩ := loopTimer_tick m now hwf
    refine ⟨m', none, ?_, hwf', by simp [Op.stores], fun _ => ⟨rfl, hid⟩⟩
    simp only [Manager.step, hrun]

theorem Manager.run_append (m : Manager) (l1 l2 : List Op) :
    m.run (l1 ++ l2) =
      match m.run l1 with
      | none => none
      | some (m1, ids1) =>
        match m1.run l2 with
        | none => none
        | some (m2, ids2) => some (m2, ids1 ++ ids2) := by
  induction l1 generalizing m with
  | nil =>
    simp only [List.nil_append, Manager.run]
    cases m.run l2 with
    | none => rfl
    | some r => simp
  | cons op l1 ih =>
    show Manager.run m (op :: (l1 ++ l2)) = _
    simp only [Manager.run]
    cases m.step op with
    | none => rfl
    | some r =>
      obtain ⟨m1, c1⟩ := r
      simp only [ih m1]
      cases m1.run l1 with
      | none => rfl
      | some r1 =>
        obtain ⟨m2, c2⟩ := r1
        simp only
        cases m2.run l2 with
        | none => rfl
        | some r2 => simp

/-- As long as the counter stays below `2^31`, a sequence of calls completes and the ids
returned by the storing registrations are the successors of the counter, in order. -/
theorem Manager.run_spec (ops : List Op) (m : Manager) (hwf : Registry.WF m.timerMgr)
    (h0 : 0 ≤ m.timerId) (hlt : m.timerId + (ops.countP Op.stores : Nat) < 2 ^ 31) :
    ∃ m', m.run ops =
        some (m', (List.range (ops.countP Op.stores)).map (fun i : Nat => m.timerId + 1 + i)) ∧
      Registry.WF m'.timerMgr ∧ m'.timerId = m.timerId + (ops.countP Op.stores : Nat) := by
  induction ops generalizing m with
  | nil => exact ⟨m, rfl, hwf, by simp⟩
  | cons op ops ih =>
    obtain ⟨m1, r, hstep, hwf1, hs, hns⟩ := Manager.step_spec m op hwf
    simp only [TimerId] at h0 hlt hs hns ih
    by_cases hst : op.stores = true
    · obtain ⟨hr, hid⟩ := hs hst
      have hcount : (op :: ops).countP Op.stores = ops.countP Op.stores + 1 :=
        List.countP_cons_of_pos _ _ hst
      rw [hcount] at hlt ⊢
      have hinc : int32Incr m.timerId = m.timerId + 1 :=
        int32Incr_of_lt _ (by omega) (by push_cast at hlt; omega)
      rw [hinc] at hid hr
      obtain ⟨m2, hrun, hwf2, hid2⟩ := ih m1 hwf1 (by omega) (by push_cast at hlt; omega)
      refine ⟨m2, ?_, hwf2, ?_⟩
      · simp only [Manager.run, hstep, hrun, hr, Option.toList]
        rw [List.range_succ_eq_map, List.map_cons, List.map_map, hid]
        simp only [List.singleton_append, Nat.cast_zero, add_zero, List.cons.injEq, true_and,
          Option.some.injEq, Prod.mk.injEq]
        refine List.map_congr_left (fun i _ => ?_)
        simp only [Function.comp, Nat.succ_eq_add_one]
        push_cast
        ring
      · rw [hid2, hid]
        push_cast
        ring
    · have hst' : op.stores = false := by simpa using hst
      obtain ⟨hr, hid⟩ := hns hst'
      have hcount : (op :: ops).countP Op.stores = ops.countP Op.stores :=
        List.countP_cons_of_neg _ _ hst
      rw [hcount] at hlt ⊢
      obtain ⟨m2, hrun, hwf2, hid2⟩ := ih m1 hwf1 (by omega) (by omega)
      refine ⟨m2, ?_, hwf2, ?_⟩
      · simp only [Manager.run, hstep, hrun, hr, Option.toList, hid, List.nil_append]
      · rw [hid2, hid]

theorem Manager.run_replicate (n : Nat) (hn : (n : Int) < 2 ^ 31) (op : Op)
    (hop : op.stores = true) :
    ∃ m1, NewTaskTimerMgr.run (List.replicate n op) =
        some (m1, (List.range n).map (fun i : Nat => (0 : Int) + 1 + i)) ∧
      Registry.WF m1.timerMgr ∧ m1.timerId = n := by
  have hc : (List.replicate n op).countP Op.stores = n := by
    rw [List.countP_replicate, if_pos hop]
  have h := Manager.run_spec (List.replicate n op) NewTaskTimerMgr Registry.WF_nil
    (le_refl _) (by rw [hc]; simpa [NewTaskTimerMgr, Manager.init] using hn)
  rw [hc] at h
  obtain ⟨m1, hrun, hwf, hid⟩ := h
  refine ⟨m1, hrun, hwf, ?_⟩
  rw [hid]
  simp [NewTaskTimerMgr, Manager.init]

/-- C8, as the code has it: starting from `NewTaskTimerMgr`, for every sequence of
registrations, unregistrations, `Clear` calls, interval changes and ticks in which fewer
than `2^31` registrations store a timer, every call completes and the ids returned by the
storing registrations are `1, 2, 3, ...` in the order of the calls: strictly increasing,
never returned twice, never `0`. -/
theorem ids_strictly_increasing (ops : List Op)
    (h : ((ops.countP Op.stores : Nat) : Int) < 2 ^ 31) :
    ∃ m ids, NewTaskTimerMgr.run ops = some (m, ids) ∧
      ids = (List.range (ops.countP Op.stores)).map (fun i : Nat => (1 : Int) + i) ∧
      ids.Pairwise (fun a b => a < b) ∧ ids.Nodup ∧ (0 : Int) ∉ ids := by
  obtain ⟨m1, hrun, -, -⟩ := Manager.run_spec ops NewTaskTimerMgr Registry.WF_nil
    (le_refl _) (by simpa [NewTaskTimerMgr, Manager.init] using h)
  have hids : (List.range (ops.countP Op.stores)).map
      (fun i : Nat => NewTaskTimerMgr.timerId + 1 + i) =
      (List.range (ops.countP Op.stores)).map (fun i : Nat => (1 : Int) + i) := by
    refine List.map_congr_left (fun i _ => ?_)
    simp [NewTaskTimerMgr, Manager.init]
  rw [hids] at hrun
  have hpw : ((List.range (ops.countP Op.stores)).map (fun i : Nat => (1 : Int) + i)).Pairwise
      (fun a b => a < b) := by
    rw [List.pairwise_map]
    exact (List.pairwise_lt_range _).imp (fun {a b} hab => by omega)
  refine ⟨m1, _, hrun, rfl, hpw, ?_, ?_⟩
  · exact hpw.imp (fun {a b} hab => ne_of_lt hab)
  · intro h0
    obtain ⟨i, -, hi⟩ := List.mem_map.mp h0
    omega

theorem ids_strictly_increasing_witness :
    ∃ m ids,
      NewTaskTimerMgr.run
        [.RegisterFixedTimer 100 (some 7) ⟨87, 1, 9, 30⟩ ⟨87, 1, 9, 30⟩,
         .RegisterFixedTimer 0 (some 7) ⟨87, 1, 9, 30⟩ ⟨87, 1, 9, 30⟩,
         .UnRegisterById 1,
         .RegisterEveryDayHourTimer 17 none ⟨88, 1, 9, 30⟩ ⟨88, 1, 9, 30⟩,
         .Clear,
         .loopTimer ⟨90, 1, 9, 30⟩,
         .RegisterWeeklyHourTimer 1 17 none ⟨91, 1, 9, 30⟩ ⟨91, 1, 9, 30⟩] = some (m, ids) ∧
      ids = [1, 2, 3] := by
  obtain ⟨m, ids, hrun, hids, -⟩ := ids_strictly_increasing
    [.RegisterFixedTimer 100 (some 7) ⟨87, 1, 9, 30⟩ ⟨87, 1, 9, 30⟩,
     .RegisterFixedTimer 0 (some 7) ⟨87, 1, 9, 30⟩ ⟨87, 1, 9, 30⟩,
     .UnRegisterById 1,
     .RegisterEveryDayHourTimer 17 none ⟨88, 1, 9, 30⟩ ⟨88, 1, 9, 30⟩,
     .Clear,
     .loopTimer ⟨90, 1, 9, 30⟩,
     .RegisterWeeklyHourTimer 1 17 none ⟨91, 1, 9, 30⟩ ⟨91, 1, 9, 30⟩] (by decide)
  exact ⟨m, ids, hrun, hids.trans (by decide)⟩

/-- C8 fails on the code: `2^31` registrations in a row, starting from `NewTaskTimerMgr`,
all store a timer, and the ids they return are not strictly increasing: the first returns
`1` and the last one returns `-2^31`, the `int32` counter having wrapped around. -/
theorem ids_wrap_counterexample :
    ∃ m ids,
      NewTaskTimerMgr.run
        (List.replicate (2 ^ 31)
          (Op.RegisterEveryDayHourTimer 17 none ⟨0, 0, 0, 0⟩ ⟨0, 0, 0, 0⟩)) = some (m, ids) ∧
      (1 : Int) ∈ ids ∧ ids.getLast? = some (-2 ^ 31) ∧
      ¬ ids.Pairwise (fun a b => a < b) := by
  have e : (2 : Nat) ^ 31 = 2147483647 + 1 := by norm_num
  obtain ⟨m1, hrun1, -, hid1⟩ := Manager.run_replicate 2147483647 (by norm_num)
    (Op.RegisterEveryDayHourTimer 17 none ⟨0, 0, 0, 0⟩ ⟨0, 0, 0, 0⟩) rfl
  have hlast : (m1.RegisterEveryDayHourTimer 17 none ⟨0, 0, 0, 0⟩ ⟨0, 0, 0, 0⟩).2 =
      -2 ^ 31 := by
    simp only [Manager.RegisterEveryDayHourTimer, Manager.register_id, hid1]
    norm_num [int32Incr]
  have hmem : (1 : Int) ∈ (List.range 2147483647).map (fun i : Nat => (0 : Int) + 1 + i) :=
    List.mem_map.mpr ⟨0, List.mem_range.mpr (by norm_num), by norm_num⟩
  rw [e, List.replicate_succ', Manager.run_append, hrun1]
  refine ⟨_, _, rfl, ?_, ?_, ?_⟩
  · exact List.mem_append_left _ hmem
  · rw [hlast]
    simp [Option.toList]
  · intro hp
    have := (List.pairwise_append.mp hp).2.2 1 hmem (-2 ^ 31) (by rw [hlast]; simp [Option.toList])
    norm_num at this

/-! ## Unregistration -/

theorem Registry.delete_of_get_none (reg : Registry) (id : TimerId)
    (h : Registry.get reg id = none) : Registry.delete reg id = reg := by
  have hk : id ∉ Registry.keys reg := (Registry.get_eq_none_iff reg id).mp h
  unfold Registry.delete
  refine List.filter_eq_self.mpr (fun e he => ?_)
  have : e.1 ≠ id := fun heq => hk (heq ▸ List.mem_map_of_mem Prod.fst he)
  simpa using this

/-- C11: `UnRegisterById(id)`, and `UnRegister(timer)` for a timer whose id is `id`, leave a
registry without `id` in which every other id maps to the timer it mapped to before; the id
counter and the interval are never changed; when `id` was absent the manager is unchanged,
so unregistering the same id a second time changes nothing. -/
theorem UnRegister_spec (m : Manager) (id : TimerId) :
    Registry.get (m.UnRegisterById id).timerMgr id = none ∧
    id ∉ Registry.keys (m.UnRegisterById id).timerMgr ∧
    (∀ k, k ≠ id →
      Registry.get (m.UnRegisterById id).timerMgr k = Registry.get m.timerMgr k) ∧
    (m.UnRegisterById id).timerId = m.timerId ∧
    (m.UnRegisterById id).interval = m.interval ∧
    (Registry.get m.timerMgr id = none → m.UnRegisterById id = m) ∧
    (m.UnRegisterById id).UnRegisterById id = m.UnRegisterById id ∧
    (∀ timer : ITimer, timer.GetTimerId = id → m.UnRegister timer = m.UnRegisterById id) := by
  have hnone : Registry.get (m.UnRegisterById id).timerMgr id = none := by
    simp [Manager.UnRegisterById, Registry.get_delete]
  have hid : ∀ m' : Manager, Registry.get m'.timerMgr id = none → m'.UnRegisterById id = m' := by
    intro m' h
    simp only [Manager.UnRegisterById, Registry.delete_of_get_none _ _ h]
  refine ⟨hnone, (Registry.get_eq_none_iff _ _).mp hnone, ?_, rfl, rfl, hid m,
    hid _ hnone, ?_⟩
  · intro k hk
    simp [Manager.UnRegisterById, Registry.get_delete, hk]
  · intro timer ht
    simp [Manager.UnRegister, Manager.UnRegisterById, ht]

theorem UnRegister_spec_witness :
    Manager.UnRegisterById
        (NewTaskTimerMgr.RegisterFixedTimer 100 (some 7) ⟨87, 1, 9, 30⟩ ⟨87, 1, 9, 30⟩).1 5 =
      (NewTaskTimerMgr.RegisterFixedTimer 100 (some 7) ⟨87, 1, 9, 30⟩ ⟨87, 1, 9, 30⟩).1 :=
  (UnRegister_spec
    (NewTaskTimerMgr.RegisterFixedTimer 100 (some 7) ⟨87, 1, 9, 30⟩ ⟨87, 1, 9, 30⟩).1
    5).2.2.2.2.2.1 (by decide)

/-! ## Corner cases of the edge tests -/

/-- C16: the result of `WeeklyHourTimer.IsArrive` does not depend on the stored `lastWeek`,
and when the previous evaluation was at the target hour on a weekday other than the target
one, the next evaluation at the target weekday and target hour returns false. -/
theorem WeeklyHourTimer_weekday_gate (t : WeeklyHourTimer) (prev now : Time) :
    (∀ lw : Int, (WeeklyHourTimer.IsArrive { t with lastWeek := lw } now).1 =
      (t.IsArrive now).1) ∧
    (prev.Hour = t.dstHour → prev.Weekday ≠ t.dstWeek →
      now.Weekday = t.dstWeek → now.Hour = t.dstHour →
      ((t.IsArrive prev).2.IsArrive now).1 = false) := by
  refine ⟨fun lw => rfl, ?_⟩
  intro h1 _ _ _
  simp [WeeklyHourTimer.IsArrive, h1]

theorem WeeklyHourTimer_weekday_gate_witness :
    ((WeeklyHourTimer.IsArrive
        (WeeklyHourTimer.IsArrive
          { base := { timerId := 1, cb := some 0 }, lastWeek := 0, lastHour := 16,
            dstWeek := 1, dstHour := 17 } ⟨100, 0, 17, 0⟩).2 ⟨86500, 1, 17, 0⟩).1) = false :=
  (WeeklyHourTimer_weekday_gate
    { base := { timerId := 1, cb := some 0 }, lastWeek := 0, lastHour := 16,
      dstWeek := 1, dstHour := 17 } ⟨100, 0, 17, 0⟩ ⟨86500, 1, 17, 0⟩).2
    (by decide) (by decide) (by decide) (by decide)

/-- C17: a Fixed timer whose baseline is below its target, evaluated at a time at or past
the target, then at a time below the target, then again at a time at or past the target,
returns true, false, true: the crossing test is satisfied twice. -/
theorem FixedTimer_refires (t : FixedTimer) (a b c : Time)
    (hlast : t.lastTs < t.dstTs) (ha : t.dstTs ≤ a.Unix) (hb : b.Unix < t.dstTs)
    (hc : t.dstTs ≤ c.Unix) :
    ITimer.IsArriveSeq (.fixed t) [a, b, c] = [true, false, true] := by
  have hb' : ¬ t.dstTs ≤ b.Unix := by omega
  have ha' : ¬ a.Unix < t.dstTs := by omega
  simp [ITimer.IsArriveSeq, ITimer.IsArrive, FixedTimer.IsArrive, hlast, ha, hb, hc, hb', ha']

theorem FixedTimer_refires_witness :
    ITimer.IsArriveSeq
        (.fixed { base := { timerId := 1, cb := some 0 }, lastTs := 87, dstTs := 100 })
        [⟨102, 1, 9, 30⟩, ⟨95, 1, 9, 30⟩, ⟨101, 1, 9, 30⟩] = [true, false, true] :=
  FixedTimer_refires { base := { timerId := 1, cb := some 0 }, lastTs := 87, dstTs := 100 }
    ⟨102, 1, 9, 30⟩ ⟨95, 1, 9, 30⟩ ⟨101, 1, 9, 30⟩ (by decide) (by decide) (by decide)
    (by decide)

/-- C18: `IsArrive(now)` changes only the last-observed fields of each of the four timers:
the resulting timer is the old one with `lastTs`, `lastHour`, `lastWeek` and `lastHour`,
or `lastWeek`, `lastHour` and `lastMinute` replaced by the components of `now`; the id, the
callback and the target fields are the same, and `GetTimerType` returns the same constant
before and after. -/
theorem IsArrive_frame (now : Time) :
    (∀ t : FixedTimer,
      (t.IsArrive now).2 = { t with lastTs := now.Unix } ∧
      (t.IsArrive now).2.base.timerId = t.base.timerId ∧
      (t.IsArrive now).2.base.cb = t.base.cb ∧ (t.IsArrive now).2.dstTs = t.dstTs) ∧
    (∀ t : EveryDayHourTimer,
      (t.IsArrive now).2 = { t with lastHour := now.Hour } ∧
      (t.IsArrive now).2.base.timerId = t.base.timerId ∧
      (t.IsArrive now).2.base.cb = t.base.cb ∧ (t.IsArrive now).2.dstHour = t.dstHour) ∧
    (∀ t : WeeklyHourTimer,
      (t.IsArrive now).2 = { t with lastWeek := now.Weekday, lastHour := now.Hour } ∧
      (t.IsArrive now).2.base.timerId = t.base.timerId ∧
      (t.IsArrive now).2.base.cb = t.base.cb ∧ (t.IsArrive now).2.dstWeek = t.dstWeek ∧
      (t.IsArrive now).2.dstHour = t.dstHour) ∧
    (∀ t : WeeklyHourMinuteTimer,
      (t.IsArrive now).2 =
        { t with lastWeek := now.Weekday, lastHour := now.Hour, lastMinute := now.Minute } ∧
      (t.IsArrive now).2.base.timerId = t.base.timerId ∧
      (t.IsArrive now).2.base.cb = t.base.cb ∧ (t.IsArrive now).2.dstWeek = t.dstWeek ∧
      (t.IsArrive now).2.dstHour = t.dstHour ∧ (t.IsArrive now).2.dstMinute = t.dstMinute) ∧
    (∀ timer : ITimer,
      (timer.IsArrive now).2.GetTimerType = timer.GetTimerType ∧
      (timer.IsArrive now).2.GetTimerId = timer.GetTimerId ∧
      (timer.IsArrive now).2.Callback now = timer.Callback now) := by
  refine ⟨fun t => ⟨rfl, rfl, rfl, rfl⟩, fun t => ⟨rfl, rfl, rfl, rfl⟩,
    fun t => ⟨rfl, rfl, rfl, rfl, rfl⟩, fun t => ⟨rfl, rfl, rfl, rfl, rfl, rfl⟩, ?_⟩
  intro timer
  cases timer <;> exact ⟨rfl, rfl, rfl⟩

/-! ## Clear -/

/-- C12, as the code has it: `Clear()` leaves the registry empty and the id counter and the
interval unchanged, and on an empty registry it leaves the manager unchanged; starting from
`NewTaskTimerMgr`, in a sequence of calls containing a `Clear` in which fewer than `2^31`
registrations store a timer, every id returned after the `Clear` is greater than every id
returned before it. -/
theorem Clear_spec (m : Manager) (ops1 ops2 : List Op)
    (h : (((ops1 ++ Op.Clear :: ops2).countP Op.stores : Nat) : Int) < 2 ^ 31) :
    (m.Clear).timerMgr = [] ∧ (m.Clear).timerId = m.timerId ∧
    (m.Clear).interval = m.interval ∧ (m.timerMgr = [] → m.Clear = m) ∧
    ∃ m1 ids1 m2 ids2,
      NewTaskTimerMgr.run ops1 = some (m1, ids1) ∧
      m1.Clear.run ops2 = some (m2, ids2) ∧
      NewTaskTimerMgr.run (ops1 ++ Op.Clear :: ops2) = some (m2, ids1 ++ ids2) ∧
      ∀ a ∈ ids1, ∀ b ∈ ids2, a < b := by
  refine ⟨rfl, rfl, rfl, ?_, ?_⟩
  · intro he
    cases m
    simp only [Manager.Clear] at he ⊢
    rw [he]
  · have hcount : (ops1 ++ Op.Clear :: ops2).countP Op.stores =
        ops1.countP Op.stores + ops2.countP Op.stores := by
      rw [List.countP_append, List.countP_cons_of_neg _ _ (by simp [Op.stores])]
    rw [hcount] at h
    push_cast at h
    have hn0 : NewTaskTimerMgr.timerId = 0 := rfl
    obtain ⟨m1, hrun1, -, hid1⟩ := Manager.run_spec ops1 NewTaskTimerMgr Registry.WF_nil
      (le_refl _) (by rw [hn0]; simp only [TimerId]; omega)
    have hc1 : (m1.Clear).timerId = (ops1.countP Op.stores : Nat) := by
      show m1.timerId = _
      rw [hid1, hn0]
      simp
    obtain ⟨m2, hrun2, -, -⟩ := Manager.run_spec ops2 m1.Clear Registry.WF_nil
      (by rw [hc1]; simp only [TimerId]; omega) (by rw [hc1]; simp only [TimerId]; omega)
    refine ⟨m1, _, m2, _, hrun1, hrun2, ?_, ?_⟩
    · rw [Manager.run_append, hrun1]
      simp only [Manager.run, Manager.step, hrun2, Option.toList, List.nil_append]
    · intro a ha b hb
      obtain ⟨i, hi, rfl⟩ := List.mem_map.mp ha
      obtain ⟨j, -, rfl⟩ := List.mem_map.mp hb
      have hi' := List.mem_range.mp hi
      rw [hc1, hn0]
      simp only [TimerId]
      omega

theorem Clear_spec_witness :
    ∃ m2 ids,
      NewTaskTimerMgr.run
        [.RegisterFixedTimer 100 (some 7) ⟨87, 1, 9, 30⟩ ⟨87, 1, 9, 30⟩,
         .RegisterEveryDayHourTimer 17 none ⟨88, 1, 9, 30⟩ ⟨88, 1, 9, 30⟩,
         .Clear,
         .RegisterWeeklyHourTimer 1 17 none ⟨91, 1, 9, 30⟩ ⟨91, 1, 9, 30⟩] = some (m2, ids) := by
  obtain ⟨-, -, -, -, m1, ids1, m2, ids2, -, -, hrun, -⟩ := Clear_spec NewTaskTimerMgr
    [.RegisterFixedTimer 100 (some 7) ⟨87, 1, 9, 30⟩ ⟨87, 1, 9, 30⟩,
     .RegisterEveryDayHourTimer 17 none ⟨88, 1, 9, 30⟩ ⟨88, 1, 9, 30⟩]
    [.RegisterWeeklyHourTimer 1 17 none ⟨91, 1, 9, 30⟩ ⟨91, 1, 9, 30⟩] (by decide)
  exact ⟨m2, _, hrun⟩

/-- C12 fails on the code: after `2^31 - 1` registrations from `NewTaskTimerMgr`, which
return among others the id `2^31 - 1`, a `Clear` followed by one more registration returns
`-2^31`, which is not greater than the ids returned before the `Clear`. -/
theorem Clear_wrap_counterexample :
    ∃ m1 ids1,
      NewTaskTimerMgr.run
        (List.replicate 2147483647
          (Op.RegisterEveryDayHourTimer 17 none ⟨0, 0, 0, 0⟩ ⟨0, 0, 0, 0⟩)) = some (m1, ids1) ∧
      (2147483647 : Int) ∈ ids1 ∧
      (m1.Clear.RegisterEveryDayHourTimer 17 none ⟨0, 0, 0, 0⟩ ⟨0, 0, 0, 0⟩).2 = -2 ^ 31 ∧
      ¬ ∀ a ∈ ids1,
        a < (m1.Clear.RegisterEveryDayHourTimer 17 none ⟨0, 0, 0, 0⟩ ⟨0, 0, 0, 0⟩).2 := by
  obtain ⟨m1, hrun1, -, hid1⟩ := Manager.run_replicate 2147483647 (by norm_num)
    (Op.RegisterEveryDayHourTimer 17 none ⟨0, 0, 0, 0⟩ ⟨0, 0, 0, 0⟩) rfl
  have hlast : (m1.Clear.RegisterEveryDayHourTimer 17 none ⟨0, 0, 0, 0⟩ ⟨0, 0, 0, 0⟩).2 =
      -2 ^ 31 := by
    simp only [Manager.RegisterEveryDayHourTimer, Manager.register_id, Manager.Clear, hid1]
    norm_num [int32Incr]
  have hmem : (2147483647 : Int) ∈
      (List.range 2147483647).map (fun i : Nat => (0 : Int) + 1 + i) :=
    List.mem_map.mpr ⟨2147483646, List.mem_range.mpr (by norm_num), by norm_num⟩
  refine ⟨m1, _, hrun1, hmem, hlast, ?_⟩
  intro hall
  have := hall _ hmem
  rw [hlast] at this
  norm_num at this

/-! ## A Fixed timer whose target is not after its baseline -/

theorem FixedTimer_stale_seq (polls : List Time) (t : FixedTimer)
    (hl : t.dstTs ≤ t.lastTs) (hp : ∀ q ∈ polls, t.dstTs ≤ q.Unix) :
    ITimer.IsArriveSeq (.fixed t) polls = List.replicate polls.length false := by
  induction polls generalizing t with
  | nil => rfl
  | cons q qs ih =>
    have h1 : (t.IsArrive q).1 = false := by
      have : ¬ t.lastTs < t.dstTs := by omega
      simp [FixedTimer.IsArrive, this]
    simp only [ITimer.IsArriveSeq, ITimer.IsArrive, List.length_cons, List.replicate_succ, h1]
    exact congrArg (List.cons false) (ih (t.IsArrive q).2
      (by simpa [FixedTimer.IsArrive] using hp q (List.mem_cons_self _ _))
      (fun r hr => by simpa [FixedTimer.IsArrive] using hp r (List.mem_cons_of_mem _ hr)))

/-- While the last-observed timestamp is not below the target and every tick is at or
past the target, a Fixed timer is never invoked and stays registered. -/
theorem timerRoutine_stale (id : TimerId) (polls : List Time) (m : Manager) (ft : FixedTimer)
    (hwf : Registry.WF m.timerMgr) (hg : Registry.get m.timerMgr id = some (.fixed ft))
    (hl : ft.dstTs ≤ ft.lastTs) (hp : ∀ q ∈ polls, ft.dstTs ≤ q.Unix) :
    ∃ m' calls ft', m.timerRoutine polls = some (m', calls) ∧ Registry.WF m'.timerMgr ∧
      Registry.get m'.timerMgr id = some (.fixed ft') ∧ ft'.base = ft.base ∧
      ft'.dstTs = ft.dstTs ∧ ft'.dstTs ≤ ft'.lastTs ∧
      calls.filter (fun c => decide (c.timerId = id)) = [] := by
  induction polls generalizing m ft with
  | nil => exact ⟨m, [], ft, rfl, hwf, hg, rfl, rfl, hl, rfl⟩
  | cons p ps ih =>
    have hnd : (ITimer.IsArrive (.fixed ft) p).1 = false := by
      have : ¬ ft.lastTs < ft.dstTs := by omega
      simp [ITimer.IsArrive, FixedTimer.IsArrive, this]
    obtain ⟨m1, c1, hrun, hwf1, -, -, hget, hcalls⟩ := loopTimer_tick m p hwf
    have hg1 : Registry.get m1.timerMgr id = some (.fixed (ft.IsArrive p).2) := by
      rw [hget id, hg]
      simp only [hnd, Bool.false_eq_true, false_and, if_false]
      rfl
    obtain ⟨m2, c2, ft2, hrun2, hwf2, hg2, hb2, hd2, hl2, hc2⟩ :=
      ih m1 (ft.IsArrive p).2 hwf1 hg1
        (by simpa [FixedTimer.IsArrive] using hp p (List.mem_cons_self _ _))
        (fun q hq => by simpa [FixedTimer.IsArrive] using hp q (List.mem_cons_of_mem _ hq))
    refine ⟨m2, c1 ++ c2, ft2, ?_, hwf2, hg2, ?_, ?_, hl2, ?_⟩
    · simp only [Manager.timerRoutine, hrun, hrun2]
    · rw [hb2]; rfl
    · rw [hd2]; rfl
    · rw [List.filter_append, hc2, hcalls id]
      simp [dueCallsOf, hg, hnd]

/-- C19: `RegisterFixedTimer` with a non-zero target that is not after the current Unix
time stores the timer under the returned id, and over every sequence of ticks whose Unix
times are not before the time of registration the timer is never due, its callback is never
invoked and it is still registered under its id afterwards. -/
theorem FixedTimer_past_target_inert (m : Manager) (ts : Int) (cb : Option TimerCB)
    (cur cur2 : Time) (polls : List Time)
    (hwf : Registry.WF m.timerMgr) (hts : ts ≠ 0) (hpast : ts ≤ cur.Unix)
    (hp : ∀ q ∈ polls, cur.Unix ≤ q.Unix) :
    Registry.get (m.RegisterFixedTimer ts cb cur cur2).1.timerMgr
        (m.RegisterFixedTimer ts cb cur cur2).2 =
      some (.fixed { base := { timerId := (m.RegisterFixedTimer ts cb cur cur2).2, cb := cb },
                     lastTs := cur.Unix, dstTs := ts }) ∧
    ITimer.IsArriveSeq
        (.fixed { base := { timerId := (m.RegisterFixedTimer ts cb cur cur2).2, cb := cb },
                  lastTs := cur.Unix, dstTs := ts }) polls =
      List.replicate polls.length false ∧
    ∃ m' calls ft',
      (m.RegisterFixedTimer ts cb cur cur2).1.timerRoutine polls = some (m', calls) ∧
      calls.filter
        (fun c => decide (c.timerId = (m.RegisterFixedTimer ts cb cur cur2).2)) = [] ∧
      Registry.get m'.timerMgr (m.RegisterFixedTimer ts cb cur cur2).2 =
        some (.fixed ft') ∧
      ft'.base = { timerId := (m.RegisterFixedTimer ts cb cur cur2).2, cb := cb } ∧
      ft'.dstTs = ts := by
  have hg : Registry.get (m.RegisterFixedTimer ts cb cur cur2).1.timerMgr
      (m.RegisterFixedTimer ts cb cur cur2).2 =
      some (.fixed { base := { timerId := (m.RegisterFixedTimer ts cb cur cur2).2, cb := cb },
                     lastTs := cur.Unix, dstTs := ts }) := by
    simp only [Manager.RegisterFixedTimer, hts, if_false, Manager.register_id,
      Manager.register_get, if_true]
    rfl
  have hwf1 : Registry.WF (m.RegisterFixedTimer ts cb cur cur2).1.timerMgr := by
    simp only [Manager.RegisterFixedTimer, hts, if_false]
    exact Manager.register_WF _ _ _ _ hwf
  have hp' : ∀ q ∈ polls, ts ≤ q.Unix := fun q hq => le_trans hpast (hp q hq)
  refine ⟨hg, FixedTimer_stale_seq polls _ hpast hp', ?_⟩
  obtain ⟨m', calls, ft', hrun, -, hg', hb, hd, -, hc⟩ :=
    timerRoutine_stale _ polls _ _ hwf1 hg hpast hp'
  exact ⟨m', calls, ft', hrun, hc, hg', hb, hd⟩

theorem FixedTimer_past_target_inert_witness :
    ∃ m' calls,
      Manager.timerRoutine
          (NewTaskTimerMgr.RegisterFixedTimer 50 (some 7) ⟨87, 1, 9, 30⟩ ⟨87, 1, 9, 30⟩).1
          [⟨90, 1, 9, 30⟩, ⟨93, 1, 9, 30⟩] = some (m', calls) ∧
      calls.filter (fun c => decide (c.timerId =
        (NewTaskTimerMgr.RegisterFixedTimer 50 (some 7) ⟨87, 1, 9, 30⟩ ⟨87, 1, 9, 30⟩).2)) =
        [] := by
  obtain ⟨-, -, m', calls, ft', hrun, hc, -⟩ := FixedTimer_past_target_inert NewTaskTimerMgr 50
    (some 7) ⟨87, 1, 9, 30⟩ ⟨87, 1, 9, 30⟩ [⟨90, 1, 9, 30⟩, ⟨93, 1, 9, 30⟩]
    (by decide) (by decide) (by decide) (by decide)
  exact ⟨m', calls, hrun, hc⟩

/-! ## Order of evaluation within one tick -/

theorem getSortedTimerIdArray_strict (m : Manager) (hnd : (Registry.keys m.timerMgr).Nodup) :
    m.getSortedTimerIdArray.Pairwise (fun a b => a < b) := by
  have hs : List.Sorted (fun a b : Int => a ≤ b) m.getSortedTimerIdArray :=
    List.sorted_insertionSort (fun a b : Int => a ≤ b) (Registry.keys m.timerMgr)
  exact hs.lt_of_le ((getSortedTimerIdArray_perm m).nodup_iff.mpr hnd)

theorem ITimer.Callback_IsArrive (timer : ITimer) (now : Time) :
    (timer.IsArrive now).2.Callback now = timer.Callback now := by
  cases timer <;> rfl

theorem ITimer.Callback_of_some (timer : ITimer) (now : Time) (c : TimerCB)
    (h : timer.base.cb = some c) :
    timer.Callback now = [{ timerId := timer.GetTimerId, cb := c, now := now }] := by
  cases timer <;> simp only [ITimer.base] at h <;>
    simp [ITimer.Callback, timerBase.Callback, h, ITimer.GetTimerId, timerBase.GetTimerId]

theorem ITimer.Callback_of_none (timer : ITimer) (now : Time) (h : timer.base.cb = none) :
    timer.Callback now = [] := by
  cases timer <;> simp only [ITimer.base] at h <;>
    simp [ITimer.Callback, timerBase.Callback, h]

theorem dueCallsOf_map (now : Time) {reg : Registry} (hwf : Registry.WF reg) (id : TimerId) :
    (dueCallsOf now reg id).map (fun c => c.timerId) =
      if (Registry.isDue now reg id && Registry.hasCallback reg id) = true then [id]
      else [] := by
  unfold dueCallsOf Registry.isDue Registry.hasCallback
  cases hg : Registry.get reg id with
  | none => simp
  | some t =>
    have hid : t.GetTimerId = id := hwf.id_eq hg
    simp only [ITimer.Callback_IsArrive]
    by_cases hd : (t.IsArrive now).1 = true
    · rcases Option.eq_none_or_eq_some t.base.cb with h | ⟨c, h⟩
      · rw [ITimer.Callback_of_none t now h]
        simp [h]
      · rw [ITimer.Callback_of_some t now c h]
        simp [h, hd, hid]
    · simp [hd]

theorem dueCalls_map (now : Time) {reg : Registry} (hwf : Registry.WF reg)
    (ids : List TimerId) :
    (dueCalls now reg ids).map (fun c => c.timerId) =
      ids.filter (fun id => Registry.isDue now reg id && Registry.hasCallback reg id) := by
  induction ids with
  | nil => rfl
  | cons id ids ih =>
    rw [dueCalls, List.map_append, ih, dueCallsOf_map now hwf id, List.filter_cons]
    split <;> simp

/-- C13: on a registry with distinct keys in which every timer is stored under its own id,
`getSortedTimerIdArray` returns a strictly ascending list holding exactly the keys of the
registry, each once, and the ids of the callback invocations of one `loopTimer(now)`, in the
order they are made, are the ids of that list whose timer is due at `now` (and has a
callback to invoke), in the same ascending order. -/
theorem loopTimer_ascending (m : Manager) (now : Time) (hwf : Registry.WF m.timerMgr) :
    m.getSortedTimerIdArray.Pairwise (fun a b => a < b) ∧
    m.getSortedTimerIdArray.Nodup ∧
    List.Perm m.getSortedTimerIdArray (Registry.keys m.timerMgr) ∧
    (∀ k, k ∈ m.getSortedTimerIdArray ↔ k ∈ Registry.keys m.timerMgr) ∧
    ∃ m' calls, m.loopTimer now = some (m', calls) ∧
      calls.map (fun c => c.timerId) =
        m.getSortedTimerIdArray.filter
          (fun id => Registry.isDue now m.timerMgr id && Registry.hasCallback m.timerMgr id) ∧
      ((∀ id, Registry.isDue now m.timerMgr id = true →
          Registry.hasCallback m.timerMgr id = true) →
        calls.map (fun c => c.timerId) =
          m.getSortedTimerIdArray.filter (fun id => Registry.isDue now m.timerMgr id)) ∧
      (calls.map (fun c => c.timerId)).Pairwise (fun a b => a < b) ∧
      List.Sublist (calls.map (fun c => c.timerId)) m.getSortedTimerIdArray := by
  have hperm := getSortedTimerIdArray_perm m
  have hstrict := getSortedTimerIdArray_strict m hwf.1
  refine ⟨hstrict, hperm.nodup_iff.mpr hwf.1, hperm, fun k => hperm.mem_iff, ?_⟩
  obtain ⟨m', hrun, -⟩ := loopTimer_spec m now hwf
  have hmap := dueCalls_map now hwf m.getSortedTimerIdArray
  refine ⟨m', _, hrun, hmap, ?_, ?_, ?_⟩
  · intro hall
    rw [hmap]
    refine List.filter_congr (fun id _ => ?_)
    cases hd : Registry.isDue now m.timerMgr id
    · rfl
    · simp [hall id hd]
  · rw [hmap]
    exact hstrict.sublist (List.filter_sublist _)
  · rw [hmap]
    exact List.filter_sublist _

theorem loopTimer_ascending_witness :
    ∃ m' calls,
      Manager.loopTimer
          ((NewTaskTimerMgr.RegisterEveryDayHourTimer 9 (some 8) ⟨87, 1, 8, 59⟩
              ⟨87, 1, 8, 59⟩).1.RegisterFixedTimer 100 (some 7) ⟨87, 1, 8, 59⟩
              ⟨87, 1, 8, 59⟩).1 ⟨3700, 1, 9, 0⟩ = some (m', calls) ∧
      calls.map (fun c => c.timerId) = [1, 2] := by
  obtain ⟨-, -, -, -, m', calls, hrun, hmap, -⟩ := loopTimer_ascending
    ((NewTaskTimerMgr.RegisterEveryDayHourTimer 9 (some 8) ⟨87, 1, 8, 59⟩
        ⟨87, 1, 8, 59⟩).1.RegisterFixedTimer 100 (some 7) ⟨87, 1, 8, 59⟩ ⟨87, 1, 8, 59⟩).1
    ⟨3700, 1, 9, 0⟩ (by decide)
  exact ⟨m', calls, hrun, hmap.trans (by decide)⟩

/-! ## The registry after one tick -/

/-- C14: after one `loopTimer(now)` on a registry with distinct keys in which every timer is
stored under its own id, (i) an id is registered exactly when it was registered before and
its timer was not a Fixed timer due at `now` (whatever its callback), and every
EveryDayHour, WeeklyHour and WeeklyHourMinute timer is still registered under its id;
(ii) every timer still registered is the old one with its last-observed fields replaced by
the components of `now`; (iii) the id counter and the interval are unchanged. -/
theorem loopTimer_registry_after (m : Manager) (now : Time)
    (hwf : Registry.WF m.timerMgr) :
    ∃ m' calls, m.loopTimer now = some (m', calls) ∧
      m'.timerId = m.timerId ∧ m'.interval = m.interval ∧
      (∀ k, (∃ t', Registry.get m'.timerMgr k = some t') ↔
        ∃ t, Registry.get m.timerMgr k = some t ∧
          ¬ ((t.IsArrive now).1 = true ∧ t.GetTimerType = TimerTypeFixed)) ∧
      (∀ k (t : FixedTimer), Registry.get m.timerMgr k = some (.fixed t) →
        Registry.get m'.timerMgr k =
          if t.lastTs < t.dstTs ∧ t.dstTs ≤ now.Unix then none
          else some (.fixed { t with lastTs := now.Unix })) ∧
      (∀ k (t : EveryDayHourTimer), Registry.get m.timerMgr k = some (.everyDayHour t) →
        Registry.get m'.timerMgr k = some (.everyDayHour { t with lastHour := now.Hour })) ∧
      (∀ k (t : WeeklyHourTimer), Registry.get m.timerMgr k = some (.weeklyHour t) →
        Registry.get m'.timerMgr k =
          some (.weeklyHour { t with lastWeek := now.Weekday, lastHour := now.Hour })) ∧
      (∀ k (t : WeeklyHourMinuteTimer),
        Registry.get m.timerMgr k = some (.weeklyHourMinute t) →
        Registry.get m'.timerMgr k =
          some (.weeklyHourMinute { t with lastWeek := now.Weekday, lastHour := now.Hour,
                                           lastMinute := now.Minute })) := by
  obtain ⟨m', calls, hrun, -, hid, hint, hget, -⟩ := loopTimer_tick m now hwf
  refine ⟨m', calls, hrun, hid, hint, ?_, ?_, ?_, ?_, ?_⟩
  · intro k
    rw [hget k]
    cases hg : Registry.get m.timerMgr k with
    | none => simp
    | some t =>
      simp only [ITimer.GetTimerType_IsArrive, Option.some.injEq, exists_eq_left']
      by_cases hc : (t.IsArrive now).1 = true ∧ t.GetTimerType = TimerTypeFixed
      · simp [hc]
      · simp [hc]
  · intro k t hg
    rw [hget k, hg]
    simp only [ITimer.IsArrive, ITimer.GetTimerType, FixedTimer.GetTimerType, and_true,
      FixedTimer.IsArrive, Bool.and_eq_true, decide_eq_true_eq, gt_iff_lt]
  · intro k t hg
    rw [hget k, hg]
    simp [ITimer.IsArrive, ITimer.GetTimerType, EveryDayHourTimer.GetTimerType,
      EveryDayHourTimer.IsArrive, TimerTypeEveryDayHour, TimerTypeFixed]
  · intro k t hg
    rw [hget k, hg]
    simp [ITimer.IsArrive, ITimer.GetTimerType, WeeklyHourTimer.GetTimerType,
      WeeklyHourTimer.IsArrive, TimerTypeWeeklyHour, TimerTypeFixed]
  · intro k t hg
    rw [hget k, hg]
    simp [ITimer.IsArrive, ITimer.GetTimerType, WeeklyHourMinuteTimer.GetTimerType,
      WeeklyHourMinuteTimer.IsArrive, TimerTypeWeeklyHourMinute, TimerTypeFixed]

theorem loopTimer_registry_after_witness :
    ∃ m' calls,
      Manager.loopTimer
          ((NewTaskTimerMgr.RegisterEveryDayHourTimer 9 (some 8) ⟨87, 1, 8, 59⟩
              ⟨87, 1, 8, 59⟩).1.RegisterFixedTimer 100 none ⟨87, 1, 8, 59⟩
              ⟨87, 1, 8, 59⟩).1 ⟨3700, 1, 9, 0⟩ = some (m', calls) ∧
      Registry.get m'.timerMgr 2 = none ∧
      Registry.get m'.timerMgr 1 =
        some (.everyDayHour { base := { timerId := 1, cb := some 8 }, lastHour := 9,
                              dstHour := 9 }) := by
  obtain ⟨m', calls, hrun, -, -, -, hfix, hday, -⟩ := loopTimer_registry_after
    ((NewTaskTimerMgr.RegisterEveryDayHourTimer 9 (some 8) ⟨87, 1, 8, 59⟩
        ⟨87, 1, 8, 59⟩).1.RegisterFixedTimer 100 none ⟨87, 1, 8, 59⟩ ⟨87, 1, 8, 59⟩).1
    ⟨3700, 1, 9, 0⟩ (by decide)
  refine ⟨m', calls, hrun, ?_, ?_⟩
  · exact (hfix 2 { base := { timerId := 2, cb := none }, lastTs := 87, dstTs := 100 }
      (by decide)).trans (by decide)
  · exact hday 1 { base := { timerId := 1, cb := some 8 }, lastHour := 8, dstHour := 9 }
      (by decide)

/-! ## Lookups during one tick -/

theorem loopIds_append (now : Time) (l1 l2 : List TimerId) (reg : Registry) :
    loopIds now reg (l1 ++ l2) =
      match loopIds now reg l1 with
      | none => none
      | some (reg1, c1) =>
        match loopIds now reg1 l2 with
        | none => none
        | some (reg2, c2) => some (reg2, c1 ++ c2) := by
  induction l1 generalizing reg with
  | nil =>
    simp only [List.nil_append, loopIds]
    cases loopIds now reg l2 with
    | none => rfl
    | some r => simp
  | cons id l1 ih =>
    show loopIds now reg (id :: (l1 ++ l2)) = _
    cases hg : Registry.get reg id with
    | none => simp [loopIds, hg]
    | some timer =>
      rw [loopIds_cons now reg id (l1 ++ l2) timer hg, loopIds_cons now reg id l1 timer hg,
        ih (loopBodyReg now reg id timer)]
      cases loopIds now (loopBodyReg now reg id timer) l1 with
      | none => rfl
      | some r1 =>
        obtain ⟨reg1, c1⟩ := r1
        simp only
        cases loopIds now reg1 l2 with
        | none => rfl
        | some r2 => simp

/-- C20: in one `loopTimer(now)` on a registry with distinct keys in which every timer is
stored under its own id, the sorted snapshot holds no id twice, and for every id of the
snapshot the loop reaches it without a failed lookup and finds a timer under it in the
registry as it is at that moment; processing that id changes no other entry; the tick
completes. -/
theorem loopTimer_lookup_present (m : Manager) (now : Time) (pre : List TimerId)
    (id : TimerId) (post : List TimerId) (hwf : Registry.WF m.timerMgr)
    (hsplit : m.getSortedTimerIdArray = pre ++ id :: post) :
    m.getSortedTimerIdArray.Nodup ∧
    (∃ r, m.loopTimer now = some r) ∧
    ∃ reg1 c1 timer,
      loopIds now m.timerMgr pre = some (reg1, c1) ∧
      Registry.get reg1 id = some timer ∧
      (∀ k, k ≠ id →
        Registry.get (loopBodyReg now reg1 id timer) k = Registry.get reg1 k) ∧
      loopIds now m.timerMgr m.getSortedTimerIdArray =
        match loopIds now reg1 (id :: post) with
        | none => none
        | some (reg2, c2) => some (reg2, c1 ++ c2) := by
  have hperm := getSortedTimerIdArray_perm m
  have hnd : m.getSortedTimerIdArray.Nodup := hperm.nodup_iff.mpr hwf.1
  have hin : ∀ k ∈ m.getSortedTimerIdArray, ∃ t, Registry.get m.timerMgr k = some t :=
    fun k hk => (Registry.mem_keys_iff _ _).mp (hperm.mem_iff.mp hk)
  obtain ⟨m', hrun, -⟩ := loopTimer_spec m now hwf
  refine ⟨hnd, ⟨_, hrun⟩, ?_⟩
  rw [hsplit] at hnd hin
  have hndpre : pre.Nodup := (List.nodup_append.mp hnd).1
  have hnotin : id ∉ pre := fun h =>
    (List.nodup_append.mp hnd).2.2 h (List.mem_cons_self _ _)
  obtain ⟨reg1, hrun1, hwf1, hget1⟩ := loopIds_spec now pre m.timerMgr hwf hndpre
    (fun k hk => hin k (List.mem_append_left _ hk))
  obtain ⟨timer, ht⟩ := hin id (List.mem_append_right _ (List.mem_cons_self _ _))
  have hg1 : Registry.get reg1 id = some timer := by
    rw [hget1 id, tickGet, if_neg hnotin, ht]
  refine ⟨reg1, _, timer, hrun1, hg1, ?_, ?_⟩
  · intro k hk
    rw [loopBodyReg_get now reg1 id timer (hwf1.id_eq hg1), if_neg hk]
  · rw [hsplit, loopIds_append, hrun1]

theorem loopTimer_lookup_present_witness :
    ∃ reg1 c1 timer,
      loopIds ⟨3700, 1, 9, 0⟩
          ((NewTaskTimerMgr.RegisterFixedTimer 100 (some 7) ⟨87, 1, 8, 59⟩
              ⟨87, 1, 8, 59⟩).1.RegisterEveryDayHourTimer 9 (some 8) ⟨87, 1, 8, 59⟩
              ⟨87, 1, 8, 59⟩).1.timerMgr [1] = some (reg1, c1) ∧
      Registry.get reg1 2 = some timer := by
  obtain ⟨-, -, reg1, c1, timer, hrun, hg, -⟩ := loopTimer_lookup_present
    ((NewTaskTimerMgr.RegisterFixedTimer 100 (some 7) ⟨87, 1, 8, 59⟩
        ⟨87, 1, 8, 59⟩).1.RegisterEveryDayHourTimer 9 (some 8) ⟨87, 1, 8, 59⟩
        ⟨87, 1, 8, 59⟩).1
    ⟨3700, 1, 9, 0⟩ [1] 2 [] (by decide) (by decide)
  exact ⟨reg1, c1, timer, hrun, hg⟩

end TaskTimer
